import Mathlib

/-!
# Shallow embedding of the Januszex VRP planner

This file embeds the delivery-plan decoder, the vehicle-selection heuristic,
the fitness evaluator and the ordered-crossover operator of the repository
(`lib/data_structures.py`, `lib/solver.py`, `lib/io.py`) and proves properties
about them.

Modelling conventions:

* The three products (`orange`, `tuna`, `uranium`) are hard-coded throughout
  the repository (`Vehicle.__init__`, `Point.generate_random_demand`,
  `main.generate_points`), so product-keyed dictionaries are embedded as the
  record `Qty` with one integer field per product.  All dictionaries built by
  the program carry all three keys, so the "missing key" warning paths of
  `Vehicle.add_stop` never fire and are not embedded.
* Python `Point` objects are compared and hashed by identity; the decoder
  addresses them through `self.points`.  Points are therefore embedded as
  indices into the points list, index `0` being the warehouse
  (`self.warehouse = points[0]`).  Mutation of `point.remaining_demand` is
  explicit state passing of a `List Qty` indexed like the points list.
* Coordinates enter the computation only through `Point.distance_to`
  (Euclidean, irrational in general).  The decoder is parameterised by a
  distance function `d : Nat → Nat → ℚ` on point indices; all theorems hold
  for every such function and concrete witnesses use collinear
  configurations, where the Euclidean distance `|x₁ - x₂|` is rational.
* `create_delivery_plan` (solver.py:89-91) creates each vehicle by
  `Vehicle(id, type)`, then `v.reset()`, then `v.capacity = vt['capacity']` —
  after which `v.capacity` *aliases* the shared `vt['capacity']` dict.  This
  aliasing is embedded with `DictRef`: a load/capacity slot either points at
  one of the shared per-type capacity dicts (`.spec t`, backed by the state
  component `caps : List Qty`) or owns a private dict (`.priv q`).  Writes
  through a `.spec` reference mutate `caps`, exactly like Python writes
  through an alias.
* Decode-created vehicles always have `driven_by_cat = False`
  (`Vehicle.__init__`), so the cat branch of `add_stop`
  (data_structures.py:106-111) is dead during decoding and is not embedded.
* Exceptions become `Except Err`.  The `RuntimeError` messages that
  interpolate the non-existent attribute `point.id` raise `AttributeError`
  while formatting; either way an exception with the same control flow
  reaches the caller, so each raise site is one `Err` constructor.
-/

namespace VRP

/-- The three goods of the company (string keys in the source). -/
inductive Product where
  | orange
  | tuna
  | uranium
deriving DecidableEq, Repr, Fintype

/-- A product-keyed quantity dictionary (`{"orange": …, "tuna": …, "uranium": …}`). -/
structure Qty where
  orange : Int
  tuna : Int
  uranium : Int
deriving DecidableEq, Repr

namespace Qty

def get (q : Qty) : Product → Int
  | .orange => q.orange
  | .tuna => q.tuna
  | .uranium => q.uranium

def zero : Qty := ⟨0, 0, 0⟩

instance : Inhabited Qty := ⟨zero⟩

/-- `sum(q.values())`. -/
def total (q : Qty) : Int := q.orange + q.tuna + q.uranium

def map2 (f : Int → Int → Int) (a b : Qty) : Qty :=
  ⟨f a.orange b.orange, f a.tuna b.tuna, f a.uranium b.uranium⟩

/-- Pointwise subtraction (`d[k] -= x[k]` for every product). -/
def sub (a b : Qty) : Qty := map2 (· - ·) a b

/-- `any(v > 0 for v in q.values())`. -/
def anyPos (q : Qty) : Bool :=
  decide (0 < q.orange) || decide (0 < q.tuna) || decide (0 < q.uranium)

end Qty

/-- A reference to a product dictionary: either one of the shared
`vt['capacity']` dicts of the fleet specification (index `t` into the
state component `caps`), or a private dict owned by the vehicle. -/
inductive DictRef where
  | spec (t : Nat)
  | priv (q : Qty)
deriving DecidableEq, Repr

/-- Dereference (`caps` holds the current contents of the shared spec dicts). -/
def DictRef.get (caps : List Qty) : DictRef → Qty
  | .spec t => caps.getD t Qty.zero
  | .priv q => q

def DictRef.isPriv : DictRef → Bool
  | .priv _ => true
  | .spec _ => false

/-- Write through a dict reference: a private dict is replaced, a shared
spec dict is mutated in place (visible through `caps`). -/
def writeRef (caps : List Qty) (r : DictRef) (f : Qty → Qty) : DictRef × List Qty :=
  match r with
  | .priv q => (.priv (f q), caps)
  | .spec t => (.spec t, caps.set t (f (caps.getD t Qty.zero)))

/-- One recorded stop (`stop_info` in `Vehicle.add_stop`). -/
structure Stop where
  point : Nat
  delivery : Qty
  remaining_load : Qty
  remaining_demand : Option Qty
  is_warehouse : Bool
deriving DecidableEq, Repr

/-- A vehicle as used by the decoder. -/
structure Vehicle where
  id : Nat
  vtype : String
  route : List Stop
  current_load : DictRef
  capacity : DictRef
  total_distance : ℚ
deriving DecidableEq, Repr

instance : Inhabited Vehicle :=
  ⟨{ id := 0, vtype := "", route := [], current_load := .priv Qty.zero,
     capacity := .priv Qty.zero, total_distance := 0 }⟩

/-- One fleet-specification entry `{'type': …, 'capacity': …, 'count': …}`. -/
structure VType where
  vtype : String
  capacity : Qty
  count : Nat
deriving DecidableEq, Repr

/-- The exceptions the decoder can raise (see module comment on `point.id`). -/
inductive Err where
  | invalidVehicleType
  | notVisited
  | unsatisfiedDemand
  | noVehicleCanServe
  | hasLoadCantDeliver
  | tooManyAttempts
deriving DecidableEq, Repr

/-- `Vehicle.add_stop(point, delivery_amounts, is_warehouse)`
(data_structures.py:78-121), returning the updated vehicle, the updated
remaining-demand state `dem` and the updated shared-capacity state `caps`.

* `delivery_amounts or {k: 0 …}`: a missing (or empty) delivery dict becomes
  the zero dict.
* Non-warehouse stops with both orange and uranium positive are skipped
  entirely (the illegal-combo `return` at data_structures.py:91-94).
* The recorded `remaining_load` / `remaining_demand` are copies taken
  *before* the delivery loop (lines 96-102 run before 113-121).
* The delivery loop delivers `min(amount, remaining_demand, current_load)`
  per product, decrements the load and calls `Point.deliver`, which clamps
  the remaining demand at `0` (`max(0, rem - amount)`). -/
def Vehicle.add_stop (caps dem : List Qty) (v : Vehicle) (ptIdx : Nat)
    (delivery_amounts : Option Qty) (is_warehouse : Bool) :
    Vehicle × List Qty × List Qty :=
  let amounts := delivery_amounts.getD Qty.zero
  if ¬is_warehouse ∧ 0 < amounts.orange ∧ 0 < amounts.uranium then
    (v, dem, caps)
  else
    let load := v.current_load.get caps
    let stop : Stop :=
      { point := ptIdx, delivery := amounts, remaining_load := load,
        remaining_demand := if is_warehouse then none else some (dem.getD ptIdx Qty.zero),
        is_warehouse := is_warehouse }
    let v' := { v with route := v.route ++ [stop] }
    if is_warehouse then
      (v', dem, caps)
    else
      let rem := dem.getD ptIdx Qty.zero
      let dl := Qty.map2 min amounts (Qty.map2 min rem load)
      let (r, caps') := writeRef caps v'.current_load (fun l => l.sub dl)
      let v'' := { v' with current_load := r }
      let rem' := Qty.map2 (fun a b => max 0 (a - b)) rem dl
      (v'', dem.set ptIdx rem', caps')

/-- `Vehicle.reload` (data_structures.py:73-76): `current_load = capacity.copy()`. -/
def Vehicle.reload (caps : List Qty) (v : Vehicle) : Vehicle :=
  { v with current_load := .priv (v.capacity.get caps) }

def VEHICLE_TYPES : List String := ["green", "blue", "red"]

/-- Vehicle construction inside `create_delivery_plan` (solver.py:89-91):
`Vehicle(vehicle_id, vt['type'])` validates the type tag; `__init__` sets
`current_load = {orange:0, uranium:0, tuna:0}` and
`capacity = dict(zip(current_load, [1000, 1500, 2000]))`
(= orange 1000, uranium 1500, tuna 2000); `v.reset()` makes `current_load`
alias that private default-capacity dict and clears the route; then
`v.capacity = vt['capacity']` rebinds `capacity` to the shared spec dict
of type index `t`.  Nothing runs between `reset` and the rebind, so the
transient double alias is unobservable and `current_load` can be embedded
as a private dict holding the default capacities. -/
def mkDecodeVehicle (vehicle_id : Nat) (t : Nat) (vt : VType) : Except Err Vehicle :=
  if vt.vtype ∈ VEHICLE_TYPES then
    .ok { id := vehicle_id, vtype := vt.vtype, route := [],
          current_load := .priv ⟨1000, 2000, 1500⟩,
          capacity := .spec t, total_distance := 0 }
  else .error .invalidVehicleType

/-- `vt['count']` vehicles of type index `t`, ids counting up from `nextId`. -/
def mkVehiclesOfType (nextId t : Nat) (vt : VType) : Nat → Except Err (List Vehicle)
  | 0 => .ok []
  | n + 1 => do
    let v ← mkDecodeVehicle nextId t vt
    let rest ← mkVehiclesOfType (nextId + 1) t vt n
    .ok (v :: rest)

/-- The fleet-instantiation loop of `create_delivery_plan` (solver.py:85-93). -/
def mkFleet (nextId t : Nat) : List VType → Except Err (List Vehicle)
  | [] => .ok []
  | vt :: rest => do
    let vs ← mkVehiclesOfType nextId t vt vt.count
    let more ← mkFleet (nextId + vt.count) (t + 1) rest
    .ok (vs ++ more)

/-- `_get_vehicle_current_position` (solver.py:196-199): the last stop's
point, or the warehouse (index 0) for an empty route. -/
def get_vehicle_current_position (v : Vehicle) : Nat :=
  match v.route.getLast? with
  | none => 0
  | some s => s.point

/-- The running-total distance loop of `_calculate_vehicle_distance`
(solver.py:209-215), starting from `last_point = self.warehouse`. -/
def distFrom (d : Nat → Nat → ℚ) : Nat → List Stop → ℚ
  | _, [] => 0
  | last, s :: rest => d last s.point + distFrom d s.point rest

/-- `_calculate_vehicle_distance` (solver.py:209-215). -/
def calculate_vehicle_distance (d : Nat → Nat → ℚ) (v : Vehicle) : Vehicle :=
  { v with total_distance := distFrom d 0 v.route }

/-- `_calculate_possible_delivery` (solver.py:182-194): per product,
`min(demand, available)` when the demand is positive and the min is
positive; products without a positive deliverable quantity are simply
absent from the returned dict, which the `Qty` embedding represents as `0`.
(The `isinstance(…, dict)` guards never fire: all values are integers.) -/
def calculate_possible_delivery (caps dem : List Qty) (v : Vehicle) (ptIdx : Nat) : Qty :=
  let load := v.current_load.get caps
  let rem := dem.getD ptIdx Qty.zero
  Qty.map2
    (fun demand available =>
      if 0 < demand then (if 0 < min demand available then min demand available else 0) else 0)
    rem load

/-- The skip condition `if not delivery or all(qty <= 0 …)`
(solver.py:168, 145): the dict built by `_calculate_possible_delivery`
contains only positive entries, so it is skipped iff it is empty iff the
embedded `Qty` has no positive component. -/
def noDelivery (q : Qty) : Bool := !q.anyPos

/-- The scan of `_find_best_available_vehicle` (solver.py:161-180):
`best_score` starts at `-1`, candidates are vehicles with a non-empty
possible delivery, `score = total_delivery / (distance_to_point + 1.0)`,
and the strict `score > best_score` keeps the first vehicle on ties.
Returns the *index* of the chosen vehicle (Python returns the object;
indices embed object identity). -/
def find_best_aux (d : Nat → Nat → ℚ) (caps dem : List Qty) (ptIdx : Nat) :
    List Vehicle → Nat → Option Nat → ℚ → Option Nat
  | [], _, best, _ => best
  | v :: rest, i, best, bestScore =>
    let delivery := calculate_possible_delivery caps dem v ptIdx
    if noDelivery delivery then
      find_best_aux d caps dem ptIdx rest (i + 1) best bestScore
    else
      let pos := get_vehicle_current_position v
      let score := (delivery.total : ℚ) / (d pos ptIdx + 1)
      if bestScore < score then
        find_best_aux d caps dem ptIdx rest (i + 1) (some i) score
      else
        find_best_aux d caps dem ptIdx rest (i + 1) best bestScore

/-- `_find_best_available_vehicle` (solver.py:161-180). -/
def find_best_available_vehicle (d : Nat → Nat → ℚ) (caps dem : List Qty)
    (vehicles : List Vehicle) (ptIdx : Nat) : Option Nat :=
  find_best_aux d caps dem ptIdx vehicles 0 none (-1)

/-- `_reload_all_empty_vehicles` (solver.py:201-207): vehicles whose load
sums to exactly `0` are sent to the warehouse (if not already there) and
reloaded. -/
def reload_all_empty_vehicles (caps dem : List Qty) :
    List Vehicle → List Vehicle × List Qty × List Qty
  | [] => ([], dem, caps)
  | v :: rest =>
    let (v', dem', caps') :=
      if (v.current_load.get caps).total = 0 then
        let (v1, dem1, caps1) :=
          if get_vehicle_current_position v ≠ 0 then
            v.add_stop caps dem 0 none true
          else (v, dem, caps)
        (v1.reload caps1, dem1, caps1)
      else (v, dem, caps)
    let (rest', dem'', caps'') := reload_all_empty_vehicles caps' dem' rest
    (v' :: rest', dem'', caps'')

/-- The decoder state: per-point remaining demands, the shared
`vt['capacity']` dict contents, and the fleet. -/
structure DecodeSt where
  dem : List Qty
  caps : List Qty
  vehicles : List Vehicle
deriving DecidableEq, Repr

def max_attempts : Nat := 50

/-- The `while any(demand > 0 …) and attempts < max_attempts` loop of
`_ensure_point_fully_served` (solver.py:132-156), returning the final state
and the final value of `attempts`.  `fuel` is a structural-recursion bound;
`ensure_point_fully_served` supplies `fuel = max_attempts`, which the guard
`attempts < max_attempts` makes sufficient, so the `fuel = 0` fallback is
unreachable from the decoder.

The loop body: pick the best vehicle (retrying once after reloading all
empty vehicles), fail if none; if the chosen vehicle's possible delivery is
empty, send it to the warehouse and reload it when its load sums to zero,
else fail; otherwise `add_stop(point, delivery)` — and then lines 154-156
decrement `point.remaining_demand` and `best_vehicle.current_load` by the
same delivery *again*, without clamping. -/
def serveLoop (d : Nat → Nat → ℚ) (ptIdx : Nat) :
    Nat → Nat → DecodeSt → Except Err (DecodeSt × Nat)
  | fuel, attempts, st =>
    if (st.dem.getD ptIdx Qty.zero).anyPos = true ∧ attempts < max_attempts then
      match fuel with
      | 0 => .ok (st, attempts)
      | fuel + 1 =>
        let found :=
          match find_best_available_vehicle d st.caps st.dem st.vehicles ptIdx with
          | some bi => some (bi, st)
          | none =>
            let (vehicles', dem', caps') :=
              reload_all_empty_vehicles st.caps st.dem st.vehicles
            let st' : DecodeSt := ⟨dem', caps', vehicles'⟩
            match find_best_available_vehicle d caps' dem' vehicles' ptIdx with
            | some bi => some (bi, st')
            | none => none
        match found with
        | none => .error .noVehicleCanServe
        | some (bi, st) =>
          let v := st.vehicles.getD bi default
          let delivery := calculate_possible_delivery st.caps st.dem v ptIdx
          if noDelivery delivery then
            if (v.current_load.get st.caps).total = 0 then
              let (v1, dem1, caps1) := v.add_stop st.caps st.dem 0 none true
              let v2 := v1.reload caps1
              serveLoop d ptIdx fuel (attempts + 1) ⟨dem1, caps1, st.vehicles.set bi v2⟩
            else .error .hasLoadCantDeliver
          else
            let (v1, dem1, caps1) := v.add_stop st.caps st.dem ptIdx (some delivery) false
            let (r, caps2) := writeRef caps1 v1.current_load (fun l => l.sub delivery)
            let v2 := { v1 with current_load := r }
            let dem2 := dem1.set ptIdx ((dem1.getD ptIdx Qty.zero).sub delivery)
            serveLoop d ptIdx fuel (attempts + 1) ⟨dem2, caps2, st.vehicles.set bi v2⟩
    else .ok (st, attempts)

/-- `_ensure_point_fully_served` (solver.py:128-159): run the loop, then
raise when `attempts >= max_attempts` (even when the demand was cleared on
the 50th iteration). -/
def ensure_point_fully_served (d : Nat → Nat → ℚ) (ptIdx : Nat) (st : DecodeSt) :
    Except Err DecodeSt := do
  let (st', attempts) ← serveLoop d ptIdx max_attempts 0 st
  if max_attempts ≤ attempts then .error .tooManyAttempts else .ok st'

/-- The per-point loop of `create_delivery_plan` (solver.py:109-111),
accumulating `visited_points`. -/
def serveAll (d : Nat → Nat → ℚ) : List Nat → DecodeSt → List Nat →
    Except Err (DecodeSt × List Nat)
  | [], st, visited => .ok (st, visited)
  | i :: rest, st, visited => do
    let st' ← ensure_point_fully_served d i st
    serveAll d rest st' (visited ++ [i])

/-- The initial per-vehicle loop of `create_delivery_plan`
(solver.py:95-104): fresh vehicles get a warehouse stop, a reload, a second
warehouse stop and a distance; a vehicle whose last stop is not the
warehouse gets a closing warehouse stop and a distance. -/
def initialVehicleLoop (d : Nat → Nat → ℚ) :
    List Vehicle → List Qty → List Qty → List Vehicle × List Qty × List Qty
  | [], dem, caps => ([], dem, caps)
  | v :: rest, dem, caps =>
    let (v', dem', caps') :=
      if v.route.isEmpty then
        let (v1, dem1, caps1) := v.add_stop caps dem 0 none true
        let v2 := v1.reload caps1
        let (v3, dem3, caps3) := v2.add_stop caps1 dem1 0 none true
        (calculate_vehicle_distance d v3, dem3, caps3)
      else if (v.route.getLast?.map (·.point)) ≠ some 0 then
        let (v1, dem1, caps1) := v.add_stop caps dem 0 none true
        (calculate_vehicle_distance d v1, dem1, caps1)
      else (v, dem, caps)
    let (rest', dem'', caps'') := initialVehicleLoop d rest dem' caps'
    (v' :: rest', dem'', caps'')

/-- The closing per-vehicle loop of `create_delivery_plan`
(solver.py:121-124): add a closing warehouse stop where needed, then
recompute every vehicle's total distance. -/
def finalVehicleLoop (d : Nat → Nat → ℚ) :
    List Vehicle → List Qty → List Qty → List Vehicle × List Qty × List Qty
  | [], dem, caps => ([], dem, caps)
  | v :: rest, dem, caps =>
    let (v', dem', caps') :=
      if v.route.isEmpty ∨ (v.route.getLast?.map (·.point)) ≠ some 0 then
        v.add_stop caps dem 0 none true
      else (v, dem, caps)
    let v'' := calculate_vehicle_distance d v'
    let (rest', dem'', caps'') := finalVehicleLoop d rest dem' caps'
    (v'' :: rest', dem'', caps'')

/-- solver.py:82-83: every non-warehouse point's `remaining_demand` is reset
to a copy of `total_demand`; the warehouse's (index 0) is left as it was. -/
def resetDemands (totalDem σ : List Qty) : List Qty :=
  (List.range totalDem.length).map fun i =>
    if i = 0 then σ.getD 0 Qty.zero else totalDem.getD i Qty.zero

/-- `create_delivery_plan` (solver.py:81-126).  Inputs: the distance
function, the points' total demands (index 0 = warehouse), the fleet
specification, the individual (a list of non-warehouse point indices) and
the points' current remaining demands `σ`.  Returns the fleet together with
the final remaining-demand and shared-capacity states. -/
def create_delivery_plan (d : Nat → Nat → ℚ) (totalDem : List Qty)
    (spec : List VType) (individual : List Nat) (σ : List Qty) :
    Except Err (List Vehicle × List Qty × List Qty) := do
  let dem := resetDemands totalDem σ
  let caps := spec.map (·.capacity)
  let vehicles ← mkFleet 1 0 spec
  let (vehicles, dem, caps) := initialVehicleLoop d vehicles dem caps
  let (st, visited) ← serveAll d individual ⟨dem, caps, vehicles⟩ []
  if ((List.range totalDem.length).drop 1).any (fun i => !(visited.contains i)) then
    .error .notVisited
  else if ((List.range totalDem.length).drop 1).any
      (fun i => (st.dem.getD i Qty.zero).anyPos) then
    .error .unsatisfiedDemand
  else
    let (vehicles, dem, caps) := finalVehicleLoop d st.vehicles st.dem st.caps
    .ok (vehicles, dem, caps)

/-- The fitness result: a finite total distance or the `float('inf')`
sentinel. -/
inductive Fitness where
  | val (q : ℚ)
  | inf
deriving DecidableEq, Repr

/-- `sum(v.total_distance for v in vehicles)`. -/
def sumTotalDistance (vs : List Vehicle) : ℚ := (vs.map (·.total_distance)).sum

/-- `GeneticAlgorithmVRP.fitness` (solver.py:48-54): decode, sum the
distances; any exception is caught and turned into the infinite sentinel. -/
def fitness (d : Nat → Nat → ℚ) (totalDem : List Qty) (spec : List VType)
    (individual : List Nat) (σ : List Qty) : Fitness :=
  match create_delivery_plan d totalDem spec individual σ with
  | .ok (vs, _, _) => .val (sumTotalDistance vs)
  | .error _ => .inf

/-- The per-vehicle distance computed by `save_routes` (io.py:11-16):
the sum of `route[i].distance_to(route[i+1])` over consecutive stops. -/
def pairDist (d : Nat → Nat → ℚ) : List Nat → ℚ
  | [] => 0
  | [_] => 0
  | a :: b :: rest => d a b + pairDist d (b :: rest)

/-- `save_routes`' `vehicle_distance` for one vehicle (io.py:11-16). -/
def save_routes_vehicle_distance (d : Nat → Nat → ℚ) (v : Vehicle) : ℚ :=
  pairDist d (v.route.map (·.point))

/-! ## Ordered crossover (solver.py:60-73)

Elements are generic with decidable equality (Python compares the `Point`
objects by identity).  The child is a `List (Option α)` exactly like the
Python `[None] * size` list; the advancing scan `while parent2[parent2_idx]
in child: parent2_idx += 1` raises `IndexError` when it runs off the end of
`parent2`, embedded as `none`. -/

/-- The scan `while parent2[parent2_idx] in child: parent2_idx += 1`,
returning the first index `≥ idx` (with its element) whose element is not
yet in the child, or `none` for an `IndexError`.  Structured over the
suffix `p2.drop idx`. -/
def advanceFrom [DecidableEq α] (child : List (Option α)) :
    List α → Nat → Option (Nat × α)
  | [], _ => none
  | a :: rest, idx =>
    if some a ∈ child then advanceFrom child rest (idx + 1) else some (idx, a)

/-- The fill loop `for i in range(size): if child[i] is None: …`
(solver.py:66-72), as a zipper: `done` is the reversed processed part of
the child, `todo` the rest, so the full child is `done.reverse ++ todo`;
`idx` is `parent2_idx`. -/
def oxFill [DecidableEq α] (p2 : List α) :
    List (Option α) → List (Option α) → Nat → Option (List (Option α))
  | done, [], _ => some done.reverse
  | done, none :: todo, idx =>
    match advanceFrom (done.reverse ++ none :: todo) (p2.drop idx) idx with
    | none => none
    | some (idx', a) => oxFill p2 (some a :: done) todo (idx' + 1)
  | done, some a :: todo, idx => oxFill p2 (some a :: done) todo idx

/-- The initial child `[None]*size` with `child[start:end+1] =
parent1[start:end+1]` spliced in (solver.py:63-64); for
`start ≤ endIdx < size` the slice assignment replaces exactly the
positions `start … endIdx`. -/
def initChild (p1 : List α) (start endIdx : Nat) : List (Option α) :=
  List.replicate start none ++ ((p1.take (endIdx + 1)).drop start).map some ++
    List.replicate (p1.length - (endIdx + 1)) none

/-- `ordered_crossover` (solver.py:60-73) with the two sampled cut points
`start < endIdx` passed explicitly (the randomness externalised);
`none` is the `IndexError` case. -/
def ordered_crossover [DecidableEq α] (p1 p2 : List α) (start endIdx : Nat) :
    Option (List (Option α)) :=
  oxFill p2 [] (initChild p1 start endIdx) 0

/-- Number of unfilled (`None`) cells of a child. -/
def countNone : List (Option α) → Nat
  | [] => 0
  | none :: todo => countNone todo + 1
  | some _ :: todo => countNone todo

/-- Replace the `none` cells of a child, left to right, by the elements of
`xs` in order (specification device for the fill loop: `xs` will be the
stream of parent-2 elements not yet placed). -/
def fillNones : List (Option α) → List α → List (Option α)
  | [], _ => []
  | none :: todo, x :: xs => some x :: fillNones todo xs
  | none :: todo, [] => none :: todo
  | some a :: todo, xs => some a :: fillNones todo xs

end VRP

namespace VRP

/-! ## Projections and measurement helpers -/

/-- Did the decode succeed (no exception)? -/
def planIsOk : Except Err (List Vehicle × List Qty × List Qty) → Bool
  | .ok _ => true
  | .error _ => false

/-- The fleet returned by a successful decode. -/
def vehiclesOf : Except Err (List Vehicle × List Qty × List Qty) → List Vehicle
  | .ok (vs, _, _) => vs
  | .error _ => []

/-- The final remaining-demand state of a successful decode. -/
def demOf : Except Err (List Vehicle × List Qty × List Qty) → List Qty
  | .ok (_, dem, _) => dem
  | .error _ => []

/-- The final contents of the shared `vt['capacity']` dicts. -/
def capsOf : Except Err (List Vehicle × List Qty × List Qty) → List Qty
  | .ok (_, _, caps) => caps
  | .error _ => []

/-- Quantity of product `p` recorded as delivered by vehicle `v` in its
stops at point `i` (warehouse stops excluded; their recorded delivery is
the zero dict anyway). -/
def routeDeliveredAt (v : Vehicle) (i : Nat) (p : Product) : Int :=
  ((v.route.filter (fun s => !s.is_warehouse && s.point == i)).map
    (fun s => s.delivery.get p)).sum

/-- Total quantity of `p` recorded as delivered at point `i` across the
whole fleet. -/
def deliveredTotal (vs : List Vehicle) (i : Nat) (p : Product) : Int :=
  (vs.map (fun v => routeDeliveredAt v i p)).sum

/-- Quantity of `p` recorded as delivered across all stops of `v`'s route. -/
def routeDelivered (v : Vehicle) (p : Product) : Int :=
  (v.route.map (fun s => s.delivery.get p)).sum

/-- Total single-trip fleet capacity for product `p`. -/
def fleetCapTotal (spec : List VType) (p : Product) : Int :=
  (spec.map (fun vt => (vt.capacity.get p) * (vt.count : Int))).sum

/-- Total demand for product `p` over the non-warehouse points. -/
def demandTotal (td : List Qty) (p : Product) : Int :=
  ((td.drop 1).map (fun q => q.get p)).sum

/-- Number of non-warehouse (delivery) stops of `v` at point `i`. -/
def vehicleDeliveryStops (v : Vehicle) (i : Nat) : Nat :=
  (v.route.filter (fun s => !s.is_warehouse && s.point == i)).length

/-- Number of delivery stops at point `i` across the fleet. -/
def deliveryStops (vs : List Vehicle) (i : Nat) : Nat :=
  (vs.map (fun v => vehicleDeliveryStops v i)).sum

/-- The code's selection score (solver.py:174):
`total_delivery / (distance_to_point + 1.0)`. -/
def vehicle_score (d : Nat → Nat → ℚ) (caps dem : List Qty) (ptIdx : Nat)
    (v : Vehicle) : ℚ :=
  ((calculate_possible_delivery caps dem v ptIdx).total : ℚ) /
    (d (get_vehicle_current_position v) ptIdx + 1)

/-- Is `v` a candidate for `_find_best_available_vehicle`, i.e. is its
possible-delivery dict non-empty? -/
def isCandidate (caps dem : List Qty) (ptIdx : Nat) (v : Vehicle) : Bool :=
  (calculate_possible_delivery caps dem v ptIdx).anyPos

/-- Modelled from the spec: the selection efficiency claimed in §4.2,
`possible_delivery / (distance_to_point + distance_point_to_warehouse + ε)`
with `ε = 1` (the additive constant the code actually uses); the warehouse
is point index 0.  This definition follows the spec's words and is compared
against the code's `find_best_available_vehicle`. -/
def spec_efficiency (d : Nat → Nat → ℚ) (caps dem : List Qty) (ptIdx : Nat)
    (v : Vehicle) : ℚ :=
  ((calculate_possible_delivery caps dem v ptIdx).total : ℚ) /
    (d (get_vehicle_current_position v) ptIdx + d ptIdx 0 + 1)

/-! ## Concrete inputs

All concrete configurations are collinear (points on the x-axis), so the
rational distance tables below agree with the Euclidean `Point.distance_to`
on those coordinates. -/

/-- Distance table for two points: warehouse at (0,0), point 1 at (10,0). -/
def dS : Nat → Nat → ℚ := fun i j => if i = j then 0 else 10

/-- S1: point 1 demands 50 orange; one vehicle of capacity 100 each. -/
def tdS1 : List Qty := [Qty.zero, ⟨50, 0, 0⟩]

def specS1 : List VType := [⟨"green", ⟨100, 100, 100⟩, 1⟩]

def planS1 : Except Err (List Vehicle × List Qty × List Qty) :=
  create_delivery_plan dS tdS1 specS1 [1] tdS1

/-- S2: point 1 demands 100 orange; one vehicle of orange capacity 60. -/
def tdS2 : List Qty := [Qty.zero, ⟨100, 0, 0⟩]

def specS2 : List VType := [⟨"green", ⟨60, 0, 0⟩, 1⟩]

def planS2 : Except Err (List Vehicle × List Qty × List Qty) :=
  create_delivery_plan dS tdS2 specS2 [1] tdS2

/-- S3: point 1 demands 100 orange; one vehicle of orange capacity 30
(the decode fails: after one delivery the load is driven negative and no
vehicle qualifies again). -/
def specS3 : List VType := [⟨"green", ⟨30, 0, 0⟩, 1⟩]

/-- Distance table for the selection counterexample: the target point 1 is
10 from the warehouse; vehicle `vC4a` sits at point 1 itself, vehicle
`vC4b` at point 2, which is 2 away from point 1 (e.g. warehouse (0,0),
point 1 (10,0), point 2 (8,0)). -/
def dC4 : Nat → Nat → ℚ := fun i j =>
  if i = j then 0 else if i = 2 ∧ j = 1 then 2 else if i = 1 ∧ j = 0 then 10 else 5

/-- A vehicle positioned at point 1 with 10 orange on board. -/
def vC4a : Vehicle :=
  { id := 1, vtype := "green",
    route := [⟨1, Qty.zero, ⟨10, 0, 0⟩, some ⟨100, 0, 0⟩, false⟩],
    current_load := .priv ⟨10, 0, 0⟩, capacity := .priv ⟨10, 0, 0⟩,
    total_distance := 0 }

/-- A vehicle positioned at point 2 with 20 orange on board. -/
def vC4b : Vehicle :=
  { id := 2, vtype := "green",
    route := [⟨2, Qty.zero, ⟨20, 0, 0⟩, some ⟨0, 0, 0⟩, false⟩],
    current_load := .priv ⟨20, 0, 0⟩, capacity := .priv ⟨20, 0, 0⟩,
    total_distance := 0 }

/-- Remaining demands for the selection counterexample: point 1 wants 100
orange. -/
def demC4 : List Qty := [Qty.zero, ⟨100, 0, 0⟩, Qty.zero]

end VRP

namespace VRP

/-! ## General lemmas -/

/-- `distFrom` is `pairDist` with the start point prepended. -/
theorem distFrom_eq_pairDist (d : Nat → Nat → ℚ) :
    ∀ (x : Nat) (l : List Stop), distFrom d x l = pairDist d (x :: l.map (·.point)) := by
  intro x l
  induction l generalizing x with
  | nil => rfl
  | cons s rest ih =>
    simp only [distFrom, List.map_cons, pairDist, ih s.point]

/-- A nonnegative distance function yields nonnegative route distances. -/
theorem distFrom_nonneg (d : Nat → Nat → ℚ) (h0 : ∀ a b, 0 ≤ d a b) :
    ∀ (x : Nat) (l : List Stop), 0 ≤ distFrom d x l := by
  intro x l
  induction l generalizing x with
  | nil => simp [distFrom]
  | cons s rest ih => exact add_nonneg (h0 x s.point) (ih s.point)

/-- The concrete distance tables used by the witnesses are nonnegative. -/
theorem dS_nonneg : ∀ a b, 0 ≤ dS a b := by
  intro a b
  simp only [dS]
  split <;> norm_num

/-! ## Claim theorems: the delivery-accounting defect (C1, C2, C3)

`_ensure_point_fully_served` applies each delivery twice: once inside
`Vehicle.add_stop` (data_structures.py:113-121, which decrements the load
and calls `Point.deliver`) and once more itself (solver.py:154-156, raw
unclamped decrements).  The evaluations below exhibit the consequences on
concrete inputs. -/

/-- C1: for every successful decode, the quantities recorded in the
`delivery` mappings of all stops at a point should sum to that point's
total demand.  The code violates this: on input S2 (demand 100 orange,
single vehicle with orange capacity 60) the decode *succeeds* while
recording only 60 delivered oranges — the double decrement drives the
remaining demand from 100 to −20 after a single 60-unit delivery, so the
serving loop and the post-decode check both see no positive remainder. -/
theorem C1_delivered_sum_ne_total_demand :
    planIsOk planS2 = true ∧
    deliveredTotal (vehiclesOf planS2) 1 Product.orange = 60 ∧
    (tdS2.getD 1 Qty.zero).get Product.orange = 100 ∧ (60 : Int) ≠ 100 := by
  refine ⟨?_, ?_, by decide, by decide⟩
  · with_unfolding_all decide
  · with_unfolding_all decide

/-- C2: `0 ≤ remaining_demand[p] ≤ total_demand[p]` should hold at every
moment.  The code violates the lower bound: on input S1 (demand 50 orange,
ample capacity) the final remaining demand of point 1 is −50, because
solver.py:155 subtracts the delivery from a remainder that
`Point.deliver` had already driven to 0. -/
theorem C2_remaining_demand_negative :
    planIsOk planS1 = true ∧
    (demOf planS1).getD 1 Qty.zero = ⟨-50, 0, 0⟩ ∧
    ((demOf planS1).getD 1 Qty.zero).get Product.orange < 0 := by
  refine ⟨?_, ?_, ?_⟩ <;> with_unfolding_all decide

/-- C3: `capacity[p] − current_load[p]` should equal the sum of `p`
recorded as delivered since the vehicle last loaded at the warehouse.  The
code violates this: on input S1 the single vehicle reloads exactly once (in
the initial stub loop) and afterwards records one 50-orange delivery, yet
its orange load ends at 0 against a capacity of 100 — the load was
decremented twice per delivery (data_structures.py:117 and solver.py:156),
so `capacity − load = 100 ≠ 50`. -/
theorem C3_capacity_load_accounting_broken :
    planIsOk planS1 = true ∧
    (((vehiclesOf planS1).getD 0 default).capacity.get (capsOf planS1)).get
        Product.orange -
      (((vehiclesOf planS1).getD 0 default).current_load.get
        (capsOf planS1)).get Product.orange = 100 ∧
    routeDelivered ((vehiclesOf planS1).getD 0 default) Product.orange = 50 ∧
    (100 : Int) ≠ 50 := by
  refine ⟨?_, ?_, ?_, by decide⟩ <;> with_unfolding_all decide

/-- C5 (counterexample): the claim says that a fleet whose total capacity
for a product is below the total demand must end in an Infeasible error.
On input S2 the total orange capacity is 60 < 100 demanded, yet the decode
returns successfully (underdelivering, see C1): no error of any kind is
raised. -/
theorem C5_capacity_shortfall_no_error :
    fleetCapTotal specS2 Product.orange = 60 ∧
    demandTotal tdS2 Product.orange = 100 ∧
    fleetCapTotal specS2 Product.orange < demandTotal tdS2 Product.orange ∧
    planIsOk planS2 = true := by
  refine ⟨by decide, by decide, by decide, ?_⟩
  with_unfolding_all decide

/-- C4 (counterexample): the claimed score divides by
`distance_to_point + distance_point_to_warehouse + ε`, but the code
divides by `distance_to_point + 1.0` only.  With point 1 at distance 10
from the warehouse, vehicle `vC4a` (10 deliverable, distance 0) and
vehicle `vC4b` (20 deliverable, distance 2), the code picks `vC4a`
(10/1 > 20/3) while the claimed efficiency is maximised by the *other*
candidate `vC4b` (10/11 < 20/13). -/
theorem C4_score_formula_differs :
    find_best_available_vehicle dC4 [] demC4 [vC4a, vC4b] 1 = some 0 ∧
    isCandidate [] demC4 1 vC4b = true ∧
    spec_efficiency dC4 [] demC4 1 vC4a < spec_efficiency dC4 [] demC4 1 vC4b := by
  refine ⟨?_, by decide, ?_⟩ <;> with_unfolding_all decide

/-- C9: for every vehicle whose route begins with a warehouse stop, the
distance computed by `save_routes` (io.py:13-16, pairwise over consecutive
stops) equals the `total_distance` computed by
`_calculate_vehicle_distance` (solver.py:209-215, which starts the running
sum at the warehouse), for any distance function that is zero from the
warehouse to itself — in particular the Euclidean one. -/
theorem C9_save_routes_distance_agrees (d : Nat → Nat → ℚ) (v : Vehicle) (s : Stop)
    (h0 : d 0 0 = 0) (hh : v.route.head? = some s) (hp : s.point = 0)
    (hw : s.is_warehouse = true) :
    (calculate_vehicle_distance d v).total_distance = save_routes_vehicle_distance d v := by
  rcases hv : v.route with _ | ⟨a, l⟩
  · rw [hv] at hh; exact absurd hh (by simp)
  · rw [hv] at hh
    simp only [List.head?, Option.some.injEq] at hh
    subst hh
    simp only [calculate_vehicle_distance, save_routes_vehicle_distance, hv]
    rw [distFrom_eq_pairDist]
    simp only [List.map_cons, pairDist, hp, h0, zero_add]

/-- Witness for C9 at a concrete vehicle: route warehouse → point 1, with
the collinear table `dS`. -/
theorem C9_save_routes_distance_agrees_witness :
    (calculate_vehicle_distance dS
        { id := 1, vtype := "green",
          route := [⟨0, Qty.zero, ⟨100, 0, 0⟩, none, true⟩,
                    ⟨1, ⟨50, 0, 0⟩, ⟨100, 0, 0⟩, some ⟨50, 0, 0⟩, false⟩],
          current_load := .priv ⟨50, 0, 0⟩, capacity := .priv ⟨100, 0, 0⟩,
          total_distance := 0 }).total_distance =
      save_routes_vehicle_distance dS
        { id := 1, vtype := "green",
          route := [⟨0, Qty.zero, ⟨100, 0, 0⟩, none, true⟩,
                    ⟨1, ⟨50, 0, 0⟩, ⟨100, 0, 0⟩, some ⟨50, 0, 0⟩, false⟩],
          current_load := .priv ⟨50, 0, 0⟩, capacity := .priv ⟨100, 0, 0⟩,
          total_distance := 0 } :=
  C9_save_routes_distance_agrees dS _ ⟨0, Qty.zero, ⟨100, 0, 0⟩, none, true⟩
    (by decide) rfl rfl rfl

end VRP

namespace VRP

/-! ## Frame lemmas for the decoder state -/

/-- `getD` after `set` at a different index. -/
theorem getD_set_ne {α : Type} (l : List α) (i j : Nat) (x dflt : α) (h : i ≠ j) :
    (l.set i x).getD j dflt = l.getD j dflt := by
  induction l generalizing i j with
  | nil => simp
  | cons a t ih =>
    cases i with
    | zero => cases j with
      | zero => exact absurd rfl h
      | succ j => simp [List.set, List.getD]
    | succ i => cases j with
      | zero => simp [List.set, List.getD]
      | succ j =>
        simp only [List.set, List.getD_cons_succ]
        exact ih i j (by omega)

/-- Membership in `l.set i x` comes from `l` or is `x`. -/
theorem mem_set_cases {α : Type} (l : List α) (i : Nat) (x a : α)
    (h : a ∈ l.set i x) : a ∈ l ∨ a = x := by
  induction l generalizing i with
  | nil => simp at h
  | cons b t ih =>
    cases i with
    | zero =>
      rcases List.mem_cons.mp h with h1 | h1
      · exact Or.inr h1
      · exact Or.inl (List.mem_cons_of_mem _ h1)
    | succ i =>
      rcases List.mem_cons.mp h with h1 | h1
      · exact Or.inl (h1 ▸ List.mem_cons_self _ _)
      · rcases ih i h1 with h2 | h2
        · exact Or.inl (List.mem_cons_of_mem _ h2)
        · exact Or.inr h2

/-- A warehouse `add_stop` only appends a stop: the demand and shared
capacity states are untouched, and so is the load. -/
theorem add_stop_warehouse (caps dem : List Qty) (v : Vehicle) (i : Nat) :
    v.add_stop caps dem i none true =
      ({ v with route := v.route ++
          [⟨i, Qty.zero, v.current_load.get caps, none, true⟩] }, dem, caps) := rfl

/-- `add_stop` through a private load reference never touches `caps` and
keeps the load private. -/
theorem add_stop_caps_priv (caps dem : List Qty) (v : Vehicle) (i : Nat)
    (da : Option Qty) (iw : Bool) (h : v.current_load.isPriv = true) :
    (v.add_stop caps dem i da iw).2.2 = caps ∧
    (v.add_stop caps dem i da iw).1.current_load.isPriv = true := by
  cases hcl : v.current_load with
  | spec t => rw [hcl] at h; simp [DictRef.isPriv] at h
  | priv q =>
    simp only [Vehicle.add_stop, writeRef, hcl]
    split
    · exact ⟨rfl, by rw [hcl]; rfl⟩
    · split
      · exact ⟨rfl, rfl⟩
      · exact ⟨rfl, rfl⟩

/-- `add_stop` leaves the demand state alone except at its target index. -/
theorem add_stop_dem_frame (caps dem : List Qty) (v : Vehicle) (i j : Nat)
    (da : Option Qty) (iw : Bool) (h : i ≠ j) :
    ((v.add_stop caps dem i da iw).2.1).getD j Qty.zero = dem.getD j Qty.zero := by
  simp only [Vehicle.add_stop]
  split
  · rfl
  · split
    · rfl
    · exact getD_set_ne dem i j _ _ h

/-- The reload keeps (makes) the load private. -/
theorem reload_priv (caps : List Qty) (v : Vehicle) :
    (v.reload caps).current_load.isPriv = true := rfl

end VRP

namespace VRP

/-- `writeRef` through a private reference leaves `caps` untouched. -/
theorem writeRef_priv (caps : List Qty) (q : Qty) (f : Qty → Qty) :
    writeRef caps (.priv q) f = (.priv (f q), caps) := rfl

/-- Indexing a fleet of private-load vehicles yields a private load (the
default vehicle's load is private too). -/
theorem getD_load_priv (vs : List Vehicle) (i : Nat)
    (h : ∀ v ∈ vs, v.current_load.isPriv = true) :
    (vs.getD i default).current_load.isPriv = true := by
  rcases hlt : vs.get? i with _ | v
  · simp only [List.getD, hlt, Option.getD_none]; rfl
  · simp only [List.getD, hlt, Option.getD_some]
    exact h v (List.get?_mem hlt)

/-- Setting one private-load vehicle preserves fleet-wide privacy. -/
theorem loadsPriv_set (vs : List Vehicle) (i : Nat) (v : Vehicle)
    (h : ∀ u ∈ vs, u.current_load.isPriv = true)
    (hv : v.current_load.isPriv = true) :
    ∀ u ∈ vs.set i v, u.current_load.isPriv = true := by
  intro u hu
  rcases mem_set_cases vs i v u hu with h1 | h1
  · exact h u h1
  · exact h1 ▸ hv

/-- `_reload_all_empty_vehicles` only appends warehouse stops and reloads:
the demand and shared-capacity states are unchanged, and a private-load
fleet stays private. -/
theorem reload_all_frame (caps dem : List Qty) :
    ∀ vs : List Vehicle,
      (reload_all_empty_vehicles caps dem vs).2.1 = dem ∧
      (reload_all_empty_vehicles caps dem vs).2.2 = caps ∧
      ((∀ v ∈ vs, v.current_load.isPriv = true) →
        ∀ v ∈ (reload_all_empty_vehicles caps dem vs).1,
          v.current_load.isPriv = true) := by
  intro vs
  induction vs with
  | nil => exact ⟨rfl, rfl, fun _ v hv => absurd hv (by simp [reload_all_empty_vehicles])⟩
  | cons v rest ih =>
    simp only [reload_all_empty_vehicles, add_stop_warehouse]
    split
    · next htot =>
      split
      · next hpos =>
        refine ⟨ih.1, ih.2.1, ?_⟩
        intro hp u hu
        rcases List.mem_cons.mp hu with h1 | h1
        · exact h1 ▸ rfl
        · exact ih.2.2 (fun w hw => hp w (List.mem_cons_of_mem _ hw)) u h1
      · next hpos =>
        refine ⟨ih.1, ih.2.1, ?_⟩
        intro hp u hu
        rcases List.mem_cons.mp hu with h1 | h1
        · exact h1 ▸ rfl
        · exact ih.2.2 (fun w hw => hp w (List.mem_cons_of_mem _ hw)) u h1
    · next htot =>
      refine ⟨ih.1, ih.2.1, ?_⟩
      intro hp u hu
      rcases List.mem_cons.mp hu with h1 | h1
      · exact h1 ▸ hp v (List.mem_cons_self _ _)
      · exact ih.2.2 (fun w hw => hp w (List.mem_cons_of_mem _ hw)) u h1

end VRP

namespace VRP

/-- Invariants of one full run of the serving loop: on success the shared
capacity dicts are unchanged (every load write goes through a private
reference), the fleet's loads stay private, and — when the target point is
not the warehouse — the warehouse's remaining demand is untouched. -/
theorem serveLoop_frame (d : Nat → Nat → ℚ) (ptIdx : Nat) :
    ∀ (fuel attempts : Nat) (st st' : DecodeSt) (a' : Nat),
      (∀ v ∈ st.vehicles, v.current_load.isPriv = true) →
      serveLoop d ptIdx fuel attempts st = .ok (st', a') →
      st'.caps = st.caps ∧
      (∀ v ∈ st'.vehicles, v.current_load.isPriv = true) ∧
      (ptIdx ≠ 0 → st'.dem.getD 0 Qty.zero = st.dem.getD 0 Qty.zero) := by
  intro fuel
  induction fuel with
  | zero =>
    intro attempts st st' a' hpriv h
    rw [serveLoop] at h
    split at h <;>
      (simp only [Except.ok.injEq, Prod.mk.injEq] at h
       exact h.1 ▸ ⟨rfl, hpriv, fun _ => rfl⟩)
  | succ fuel ih =>
    intro attempts st st' a' hpriv h
    rw [serveLoop] at h
    split at h
    case isFalse =>
      simp only [Except.ok.injEq, Prod.mk.injEq] at h
      exact h.1 ▸ ⟨rfl, hpriv, fun _ => rfl⟩
    case isTrue hcond =>
      have hstep : ∀ (st0 : DecodeSt) (bi : Nat),
          st0.caps = st.caps →
          (ptIdx ≠ 0 → st0.dem.getD 0 Qty.zero = st.dem.getD 0 Qty.zero) →
          (∀ v ∈ st0.vehicles, v.current_load.isPriv = true) →
          (let v := st0.vehicles.getD bi default
           let delivery := calculate_possible_delivery st0.caps st0.dem v ptIdx
           if noDelivery delivery then
             if (v.current_load.get st0.caps).total = 0 then
               let (v1, dem1, caps1) := v.add_stop st0.caps st0.dem 0 none true
               let v2 := v1.reload caps1
               serveLoop d ptIdx fuel (attempts + 1)
                 ⟨dem1, caps1, st0.vehicles.set bi v2⟩
             else .error .hasLoadCantDeliver
           else
             let (v1, dem1, caps1) :=
               v.add_stop st0.caps st0.dem ptIdx (some delivery) false
             let (r, caps2) := writeRef caps1 v1.current_load (fun l => l.sub delivery)
             let v2 := { v1 with current_load := r }
             let dem2 := dem1.set ptIdx ((dem1.getD ptIdx Qty.zero).sub delivery)
             serveLoop d ptIdx fuel (attempts + 1)
               ⟨dem2, caps2, st0.vehicles.set bi v2⟩) = .ok (st', a') →
          st'.caps = st.caps ∧
          (∀ v ∈ st'.vehicles, v.current_load.isPriv = true) ∧
          (ptIdx ≠ 0 → st'.dem.getD 0 Qty.zero = st.dem.getD 0 Qty.zero) := by
        intro st0 bi hc0 hd0 hp0 hbody
        simp only at hbody
        split at hbody
        · -- empty possible delivery
          split at hbody
          · -- vehicle empty: warehouse stop + reload, then continue
            rw [add_stop_warehouse] at hbody
            simp only at hbody
            obtain ⟨hc', hp', hd'⟩ := ih (attempts + 1) _ st' a'
              (loadsPriv_set _ _ _ hp0 (reload_priv _ _)) hbody
            exact ⟨hc'.trans hc0, hp', fun h0 => (hd' h0).trans (hd0 h0)⟩
          · exact absurd hbody (by simp)
        · -- real delivery: add_stop, then the raw double decrement
          have hv : (st0.vehicles.getD bi default).current_load.isPriv = true :=
            getD_load_priv _ _ hp0
          rcases ha : (st0.vehicles.getD bi default).add_stop st0.caps st0.dem ptIdx
              (some (calculate_possible_delivery st0.caps st0.dem
                (st0.vehicles.getD bi default) ptIdx)) false with ⟨v1, dem1, caps1⟩
          have hfacts := add_stop_caps_priv st0.caps st0.dem
            (st0.vehicles.getD bi default) ptIdx
            (some (calculate_possible_delivery st0.caps st0.dem
              (st0.vehicles.getD bi default) ptIdx)) false hv
          rw [ha] at hfacts
          simp only at hfacts
          have hdem1 : ptIdx ≠ 0 → dem1.getD 0 Qty.zero = st0.dem.getD 0 Qty.zero := by
            intro h0
            have := add_stop_dem_frame st0.caps st0.dem
              (st0.vehicles.getD bi default) ptIdx 0
              (some (calculate_possible_delivery st0.caps st0.dem
                (st0.vehicles.getD bi default) ptIdx)) false h0
            rw [ha] at this
            exact this
          rw [ha] at hbody
          simp only at hbody
          obtain ⟨q1, hq1⟩ : ∃ q, v1.current_load = .priv q := by
            rcases hcl : v1.current_load with t | q
            · rw [hcl] at hfacts; simp [DictRef.isPriv] at hfacts
            · exact ⟨q, rfl⟩
          rw [hq1, writeRef_priv] at hbody
          simp only at hbody
          obtain ⟨hc', hp', hd'⟩ := ih (attempts + 1) _ st' a'
            (loadsPriv_set _ _ _ hp0 (by rfl)) hbody
          refine ⟨hc'.trans (hfacts.1.trans hc0), hp', fun h0 => ?_⟩
          have h1 : (dem1.set ptIdx ((dem1.getD ptIdx Qty.zero).sub
              (calculate_possible_delivery st0.caps st0.dem
                (st0.vehicles.getD bi default) ptIdx))).getD 0 Qty.zero =
              dem1.getD 0 Qty.zero := getD_set_ne _ _ _ _ _ h0
          exact (hd' h0).trans (h1.trans ((hdem1 h0).trans (hd0 h0)))
      rcases hfb : find_best_available_vehicle d st.caps st.dem st.vehicles ptIdx with
        _ | bi
      · rw [hfb] at h
        simp only at h
        obtain ⟨hra_dem, hra_caps, hra_priv⟩ :=
          reload_all_frame st.caps st.dem st.vehicles
        rcases hvdc : reload_all_empty_vehicles st.caps st.dem st.vehicles with
          ⟨vehicles1, dem1, caps1⟩
        rw [hvdc] at hra_dem hra_caps
        simp only at hra_dem hra_caps
        have hpriv1 : ∀ v ∈ vehicles1, v.current_load.isPriv = true := by
          have h2 := hra_priv hpriv
          rw [hvdc] at h2
          exact h2
        rw [hvdc] at h
        simp only at h
        rcases hfb2 : find_best_available_vehicle d caps1 dem1 vehicles1 ptIdx with
          _ | bi
        · rw [hfb2] at h
          simp at h
        · rw [hfb2] at h
          simp only at h
          exact hstep ⟨dem1, caps1, vehicles1⟩ bi hra_caps
            (fun h0 => congrArg (fun l => l.getD 0 Qty.zero) hra_dem) hpriv1 h
      · rw [hfb] at h
        simp only at h
        exact hstep st bi rfl (fun _ => rfl) hpriv h

end VRP

namespace VRP

/-- `_ensure_point_fully_served` enjoys the same frame properties as its
loop. -/
theorem ensure_frame (d : Nat → Nat → ℚ) (ptIdx : Nat) (st st' : DecodeSt)
    (hpriv : ∀ v ∈ st.vehicles, v.current_load.isPriv = true)
    (h : ensure_point_fully_served d ptIdx st = .ok st') :
    st'.caps = st.caps ∧
    (∀ v ∈ st'.vehicles, v.current_load.isPriv = true) ∧
    (ptIdx ≠ 0 → st'.dem.getD 0 Qty.zero = st.dem.getD 0 Qty.zero) := by
  simp only [ensure_point_fully_served, bind, Except.bind] at h
  rcases hsl : serveLoop d ptIdx max_attempts 0 st with e | ⟨st1, a1⟩
  · rw [hsl] at h; simp at h
  · rw [hsl] at h
    simp only at h
    split at h
    · simp at h
    · simp only [Except.ok.injEq] at h
      subst h
      exact serveLoop_frame d ptIdx max_attempts 0 st st1 a1 hpriv hsl

/-- The per-point serving loop over a whole individual: shared capacities
are preserved, loads stay private, and the warehouse demand is untouched
when no target is the warehouse. -/
theorem serveAll_frame (d : Nat → Nat → ℚ) :
    ∀ (ind : List Nat) (st : DecodeSt) (visited : List Nat)
      (st' : DecodeSt) (visited' : List Nat),
      (∀ v ∈ st.vehicles, v.current_load.isPriv = true) →
      serveAll d ind st visited = .ok (st', visited') →
      st'.caps = st.caps ∧
      (∀ v ∈ st'.vehicles, v.current_load.isPriv = true) ∧
      ((∀ i ∈ ind, i ≠ 0) → st'.dem.getD 0 Qty.zero = st.dem.getD 0 Qty.zero) := by
  intro ind
  induction ind with
  | nil =>
    intro st visited st' visited' hpriv h
    simp only [serveAll, Except.ok.injEq, Prod.mk.injEq] at h
    exact h.1 ▸ ⟨rfl, hpriv, fun _ => rfl⟩
  | cons i rest ih =>
    intro st visited st' visited' hpriv h
    simp only [serveAll, bind, Except.bind] at h
    rcases he : ensure_point_fully_served d i st with e | st1
    · rw [he] at h; simp at h
    · rw [he] at h
      simp only at h
      obtain ⟨hc1, hp1, hd1⟩ := ensure_frame d i st st1 hpriv he
      obtain ⟨hc2, hp2, hd2⟩ := ih st1 (visited ++ [i]) st' visited' hp1 h
      refine ⟨hc2.trans hc1, hp2, fun hall => ?_⟩
      have h1 := hd2 (fun j hj => hall j (List.mem_cons_of_mem _ hj))
      have h2 := hd1 (hall i (List.mem_cons_self _ _))
      exact h1.trans h2

/-- The opening per-vehicle loop of the decoder only appends warehouse
stops, reloads and sets distances: demand and shared capacities are
unchanged, and the resulting loads are private whenever the input ones
are. -/
theorem initialVehicleLoop_frame (d : Nat → Nat → ℚ) :
    ∀ (vs : List Vehicle) (dem caps : List Qty),
      (initialVehicleLoop d vs dem caps).2.1 = dem ∧
      (initialVehicleLoop d vs dem caps).2.2 = caps ∧
      ((∀ v ∈ vs, v.current_load.isPriv = true) →
        ∀ v ∈ (initialVehicleLoop d vs dem caps).1, v.current_load.isPriv = true) := by
  intro vs
  induction vs with
  | nil =>
    intro dem caps
    exact ⟨rfl, rfl, fun _ v hv => absurd hv (by simp [initialVehicleLoop])⟩
  | cons v rest ih =>
    intro dem caps
    simp only [initialVehicleLoop, add_stop_warehouse]
    split
    · obtain ⟨h1, h2, h3⟩ := ih dem caps
      refine ⟨h1, h2, fun hp u hu => ?_⟩
      rcases List.mem_cons.mp hu with hm | hm
      · exact hm ▸ rfl
      · exact h3 (fun w hw => hp w (List.mem_cons_of_mem _ hw)) u hm
    · split
      · obtain ⟨h1, h2, h3⟩ := ih dem caps
        refine ⟨h1, h2, fun hp u hu => ?_⟩
        rcases List.mem_cons.mp hu with hm | hm
        · exact hm ▸ hp v (List.mem_cons_self _ _)
        · exact h3 (fun w hw => hp w (List.mem_cons_of_mem _ hw)) u hm
      · obtain ⟨h1, h2, h3⟩ := ih dem caps
        refine ⟨h1, h2, fun hp u hu => ?_⟩
        rcases List.mem_cons.mp hu with hm | hm
        · exact hm ▸ hp v (List.mem_cons_self _ _)
        · exact h3 (fun w hw => hp w (List.mem_cons_of_mem _ hw)) u hm

/-- The closing per-vehicle loop: demand and shared capacities unchanged. -/
theorem finalVehicleLoop_frame (d : Nat → Nat → ℚ) :
    ∀ (vs : List Vehicle) (dem caps : List Qty),
      (finalVehicleLoop d vs dem caps).2.1 = dem ∧
      (finalVehicleLoop d vs dem caps).2.2 = caps := by
  intro vs
  induction vs with
  | nil => intro dem caps; exact ⟨rfl, rfl⟩
  | cons v rest ih =>
    intro dem caps
    simp only [finalVehicleLoop, add_stop_warehouse]
    split
    · exact ih dem caps
    · exact ih dem caps

/-- Every vehicle of the fresh fleet has a private (default-capacity) load
and an empty route. -/
theorem mkFleet_fresh :
    ∀ (spec : List VType) (nextId t : Nat) (fleet : List Vehicle),
      mkFleet nextId t spec = .ok fleet →
      ∀ v ∈ fleet, v.current_load = .priv ⟨1000, 2000, 1500⟩ ∧ v.route = [] := by
  have haux : ∀ (n : Nat) (nextId t : Nat) (vt : VType) (vs : List Vehicle),
      mkVehiclesOfType nextId t vt n = .ok vs →
      ∀ v ∈ vs, v.current_load = .priv ⟨1000, 2000, 1500⟩ ∧ v.route = [] := by
    intro n
    induction n with
    | zero =>
      intro nextId t vt vs h
      simp only [mkVehiclesOfType, Except.ok.injEq] at h
      subst h
      intro v hv
      simp at hv
    | succ n ih =>
      intro nextId t vt vs h
      simp only [mkVehiclesOfType, bind, Except.bind, mkDecodeVehicle] at h
      split at h
      · simp at h
      · next v0 heq =>
        have hv0 : v0.current_load = .priv ⟨1000, 2000, 1500⟩ ∧ v0.route = [] := by
          split at heq
          · simp only [Except.ok.injEq] at heq
            subst heq
            exact ⟨rfl, rfl⟩
          · simp at heq
        rcases hrest : mkVehiclesOfType (nextId + 1) t vt n with e | rest
        · rw [hrest] at h; simp at h
        · rw [hrest] at h
          simp only [Except.ok.injEq] at h
          subst h
          intro v hv
          rcases List.mem_cons.mp hv with hm | hm
          · exact hm ▸ hv0
          · exact ih (nextId + 1) t vt rest hrest v hm
  intro spec
  induction spec with
  | nil =>
    intro nextId t fleet h
    simp only [mkFleet, Except.ok.injEq] at h
    subst h
    intro v hv
    simp at hv
  | cons vt rest ih =>
    intro nextId t fleet h
    simp only [mkFleet, bind, Except.bind] at h
    rcases hvs : mkVehiclesOfType nextId t vt vt.count with e | vs
    · rw [hvs] at h; simp at h
    · rw [hvs] at h
      simp only at h
      rcases hmore : mkFleet (nextId + vt.count) (t + 1) rest with e | more
      · rw [hmore] at h; simp at h
      · rw [hmore] at h
        simp only [Except.ok.injEq] at h
        subst h
        intro v hv
        rcases List.mem_append.mp hv with hm | hm
        · exact haux vt.count nextId t vt vs hvs v hm
        · exact ih (nextId + vt.count) (t + 1) more hmore v hm

end VRP

namespace VRP

/-- Dissection of a successful decode into its phases. -/
theorem create_delivery_plan_ok_dissect (d : Nat → Nat → ℚ) (td : List Qty)
    (spec : List VType) (ind : List Nat) (σ : List Qty)
    (vs : List Vehicle) (dem caps : List Qty)
    (h : create_delivery_plan d td spec ind σ = .ok (vs, dem, caps)) :
    ∃ (fleet : List Vehicle) (st : DecodeSt) (visited : List Nat),
      mkFleet 1 0 spec = .ok fleet ∧
      serveAll d ind
        ⟨(initialVehicleLoop d fleet (resetDemands td σ) (spec.map (·.capacity))).2.1,
         (initialVehicleLoop d fleet (resetDemands td σ) (spec.map (·.capacity))).2.2,
         (initialVehicleLoop d fleet (resetDemands td σ) (spec.map (·.capacity))).1⟩
        [] = .ok (st, visited) ∧
      vs = (finalVehicleLoop d st.vehicles st.dem st.caps).1 ∧
      dem = (finalVehicleLoop d st.vehicles st.dem st.caps).2.1 ∧
      caps = (finalVehicleLoop d st.vehicles st.dem st.caps).2.2 := by
  simp only [create_delivery_plan, bind, Except.bind] at h
  rcases hmk : mkFleet 1 0 spec with e | fleet
  · rw [hmk] at h; simp at h
  · rw [hmk] at h
    simp only at h
    rcases hivl : initialVehicleLoop d fleet (resetDemands td σ)
        (spec.map (·.capacity)) with ⟨vehicles1, dem1, caps1⟩
    rw [hivl] at h
    simp only at h
    rcases hsv : serveAll d ind ⟨dem1, caps1, vehicles1⟩ [] with e | ⟨st, visited⟩
    · rw [hsv] at h; simp at h
    · rw [hsv] at h
      simp only at h
      split at h
      · simp at h
      · split at h
        · simp at h
        · rcases hfvl : finalVehicleLoop d st.vehicles st.dem st.caps with
            ⟨vehicles2, dem2, caps2⟩
          rw [hfvl] at h
          simp only [Except.ok.injEq, Prod.mk.injEq] at h
          refine ⟨fleet, st, visited, rfl, ?_, ?_, ?_, ?_⟩
          · rw [hivl]; exact hsv
          · rw [hfvl]; exact h.1.symm
          · rw [hfvl]; exact h.2.1.symm
          · rw [hfvl]; exact h.2.2.symm

end VRP

namespace VRP

/-- Every vehicle leaving the closing loop carries a `distFrom` distance,
hence a nonnegative one for nonnegative distance functions. -/
theorem finalVehicleLoop_dist_nonneg (d : Nat → Nat → ℚ) (h0 : ∀ a b, 0 ≤ d a b) :
    ∀ (vs : List Vehicle) (dem caps : List Qty),
      ∀ v' ∈ (finalVehicleLoop d vs dem caps).1, 0 ≤ v'.total_distance := by
  intro vs
  induction vs with
  | nil =>
    intro dem caps v' hv
    simp [finalVehicleLoop] at hv
  | cons v rest ih =>
    intro dem caps v' hv
    simp only [finalVehicleLoop, add_stop_warehouse] at hv
    split at hv <;>
      (rcases List.mem_cons.mp hv with hm | hm
       · subst hm
         exact distFrom_nonneg d h0 0 _
       · exact ih _ _ v' hm)

/-- A fleet of nonnegative distances has nonnegative total distance. -/
theorem sumTotalDistance_nonneg (vs : List Vehicle)
    (h : ∀ v ∈ vs, 0 ≤ v.total_distance) : 0 ≤ sumTotalDistance vs := by
  simp only [sumTotalDistance]
  apply List.sum_nonneg
  intro x hx
  obtain ⟨v, hv, rfl⟩ := List.mem_map.mp hx
  exact h v hv

/-- C6: the fitness function (solver.py:48-54) is total: when the decode
succeeds it returns the (nonnegative, for any nonnegative distance
function) sum of the vehicles' total distances, and when the decode raises
any failure it returns the infinite-cost sentinel instead of propagating
the exception — so a failed decode during the search never aborts the
genetic loop. -/
theorem C6_fitness_contract (d : Nat → Nat → ℚ) (td : List Qty)
    (spec : List VType) (ind : List Nat) (σ : List Qty)
    (h0 : ∀ a b, 0 ≤ d a b) :
    (∀ e, create_delivery_plan d td spec ind σ = .error e →
        fitness d td spec ind σ = .inf) ∧
    (planIsOk (create_delivery_plan d td spec ind σ) = true →
      fitness d td spec ind σ =
        .val (sumTotalDistance (vehiclesOf (create_delivery_plan d td spec ind σ))) ∧
      0 ≤ sumTotalDistance (vehiclesOf (create_delivery_plan d td spec ind σ))) := by
  rcases hr : create_delivery_plan d td spec ind σ with e | ⟨vs, dem, caps⟩
  · refine ⟨fun e' _ => by simp [fitness, hr], fun hok => ?_⟩
    simp [planIsOk] at hok
  · refine ⟨fun e' he' => by simp at he', fun hok => ?_⟩
    obtain ⟨fleet, st, visited, hmk, hsv, hvs, hdem, hcaps⟩ :=
      create_delivery_plan_ok_dissect d td spec ind σ vs dem caps hr
    constructor
    · simp [fitness, hr, vehiclesOf]
    · simp only [vehiclesOf]
      apply sumTotalDistance_nonneg
      intro v hv
      rw [hvs] at hv
      exact finalVehicleLoop_dist_nonneg d h0 st.vehicles st.dem st.caps v hv

/-- Witness for C6 on the failing input S3 (capacity 30 against demand
100): the decode raises and the fitness is the infinite sentinel. -/
theorem C6_fitness_contract_witness :
    fitness dS tdS2 specS3 [1] tdS2 = .inf :=
  (C6_fitness_contract dS tdS2 specS3 [1] tdS2 dS_nonneg).1
    .noVehicleCanServe (by with_unfolding_all rfl)

/-- C10: `create_delivery_plan` never mutates the fleet specification.
Although each vehicle's `capacity` attribute aliases the shared
`vt['capacity']` dict (modelled by the `.spec` reference), every load
mutation happens on a private dict produced by `reload` (or the private
default dict from `__init__`), so on every decode the shared per-product
capacity contents are the ones the specification started with. -/
theorem C10_fleet_spec_not_mutated (d : Nat → Nat → ℚ) (td : List Qty)
    (spec : List VType) (ind : List Nat) (σ : List Qty)
    (h : planIsOk (create_delivery_plan d td spec ind σ) = true) :
    capsOf (create_delivery_plan d td spec ind σ) = spec.map (·.capacity) := by
  rcases hr : create_delivery_plan d td spec ind σ with e | ⟨vs, dem, caps⟩
  · rw [hr] at h; simp [planIsOk] at h
  · simp only [capsOf]
    obtain ⟨fleet, st, visited, hmk, hsv, hvs, hdem, hcaps⟩ :=
      create_delivery_plan_ok_dissect d td spec ind σ vs dem caps hr
    have hfleet := mkFleet_fresh spec 1 0 fleet hmk
    have hp0 : ∀ v ∈ fleet, v.current_load.isPriv = true := fun v hv => by
      rw [(hfleet v hv).1]; rfl
    obtain ⟨hivd, hivc, hivp⟩ :=
      initialVehicleLoop_frame d fleet (resetDemands td σ) (spec.map (·.capacity))
    obtain ⟨hsc, hsp, hsd⟩ :=
      serveAll_frame d ind _ [] st visited (hivp hp0) hsv
    rw [hcaps, (finalVehicleLoop_frame d st.vehicles st.dem st.caps).2]
    exact hsc.trans hivc

/-- Witness for C10 on the concrete input S1. -/
theorem C10_fleet_spec_not_mutated_witness :
    capsOf (create_delivery_plan dS tdS1 specS1 [1] tdS1) =
      specS1.map (·.capacity) :=
  C10_fleet_spec_not_mutated dS tdS1 specS1 [1] tdS1 (by with_unfolding_all decide)

/-- `getD 0` of a map over a nonempty range. -/
theorem getD_map_range (n : Nat) (f : Nat → Qty) (h : 0 < n) :
    ((List.range n).map f).getD 0 Qty.zero = f 0 := by
  rcases n with _ | n
  · omega
  · rw [List.range_succ_eq_map]
    simp [List.getD]

/-- `resetDemands` only reads index 0 of the previous state. -/
theorem resetDemands_congr (td x y : List Qty)
    (h : x.getD 0 Qty.zero = y.getD 0 Qty.zero) :
    resetDemands td x = resetDemands td y := by
  simp only [resetDemands, h]

/-- Resetting twice is the same as resetting once. -/
theorem resetDemands_idem (td σ : List Qty) :
    resetDemands td (resetDemands td σ) = resetDemands td σ := by
  simp only [resetDemands]
  apply List.map_congr_left
  intro i hi
  rcases Nat.eq_zero_or_pos i with h0 | h0
  · subst h0
    have hn : 0 < td.length := (List.mem_range).mp hi
    simp only [if_pos rfl]
    rw [show ((List.range td.length).map fun i =>
        if i = 0 then σ.getD 0 Qty.zero else td.getD i Qty.zero).getD 0 Qty.zero =
        (if 0 = 0 then σ.getD 0 Qty.zero else td.getD 0 Qty.zero) from
      getD_map_range td.length _ hn]
    simp
  · have : i ≠ 0 := by omega
    simp [this]

/-- A successful decode leaves the warehouse's remaining demand where the
reset put it (the serving loop never writes index 0 when every target is a
non-warehouse point). -/
theorem decode_dem0 (d : Nat → Nat → ℚ) (td : List Qty) (spec : List VType)
    (ind : List Nat) (σ : List Qty) (vs : List Vehicle) (dem caps : List Qty)
    (h2 : ∀ i ∈ ind, i ≠ 0)
    (hr : create_delivery_plan d td spec ind σ = .ok (vs, dem, caps)) :
    dem.getD 0 Qty.zero = (resetDemands td σ).getD 0 Qty.zero := by
  obtain ⟨fleet, st, visited, hmk, hsv, hvs, hdem, hcaps⟩ :=
    create_delivery_plan_ok_dissect d td spec ind σ vs dem caps hr
  have hfleet := mkFleet_fresh spec 1 0 fleet hmk
  have hp0 : ∀ v ∈ fleet, v.current_load.isPriv = true := fun v hv => by
    rw [(hfleet v hv).1]; rfl
  obtain ⟨hivd, hivc, hivp⟩ :=
    initialVehicleLoop_frame d fleet (resetDemands td σ) (spec.map (·.capacity))
  obtain ⟨hsc, hsp, hsd⟩ :=
    serveAll_frame d ind _ [] st visited (hivp hp0) hsv
  have h1 : dem = st.dem :=
    hdem.trans (finalVehicleLoop_frame d st.vehicles st.dem st.caps).1
  rw [h1]
  exact (hsd h2).trans (congrArg (fun l => l.getD 0 Qty.zero) hivd)

/-- C8: decoding is a function of the individual, the total demands and
the fleet specification alone: the remaining-demand state left behind by
one (successful) decode does not influence any later decode — re-decoding
from the mutated state gives the identical result (same routes, same
state), because `create_delivery_plan` first resets every non-warehouse
remaining demand and never touches the warehouse's. -/
theorem C8_decode_state_independent (d : Nat → Nat → ℚ) (td : List Qty)
    (spec : List VType) (ind ind2 : List Nat) (σ : List Qty)
    (h2 : ∀ i ∈ ind2, i ≠ 0)
    (h : planIsOk (create_delivery_plan d td spec ind2 σ) = true) :
    create_delivery_plan d td spec ind (demOf (create_delivery_plan d td spec ind2 σ)) =
      create_delivery_plan d td spec ind σ := by
  rcases hr : create_delivery_plan d td spec ind2 σ with e | ⟨vs, dem, caps⟩
  · rw [hr] at h; simp [planIsOk] at h
  · simp only [demOf]
    have hd0 := decode_dem0 d td spec ind2 σ vs dem caps h2 hr
    have hreset : resetDemands td dem = resetDemands td σ :=
      (resetDemands_congr td dem (resetDemands td σ) hd0).trans
        (resetDemands_idem td σ)
    simp only [create_delivery_plan]
    rw [hreset]

/-- Witness for C8: re-decoding S1's individual from the state its own
decode left behind reproduces the identical plan. -/
theorem C8_decode_state_independent_witness :
    create_delivery_plan dS tdS1 specS1 [1]
        (demOf (create_delivery_plan dS tdS1 specS1 [1] tdS1)) =
      create_delivery_plan dS tdS1 specS1 [1] tdS1 :=
  C8_decode_state_independent dS tdS1 specS1 [1] [1] tdS1
    (by intro i hi; simp only [List.mem_singleton] at hi; subst hi; exact one_ne_zero)
    (by with_unfolding_all decide)

end VRP

namespace VRP

/-! ## Counting delivery stops (the retry bound of the serving loop) -/

theorem deliveryStops_cons (v : Vehicle) (vs : List Vehicle) (i : Nat) :
    deliveryStops (v :: vs) i = vehicleDeliveryStops v i + deliveryStops vs i := by
  simp [deliveryStops]

/-- A warehouse stop is never counted as a delivery stop. -/
theorem vds_add_stop_warehouse (caps dem : List Qty) (v : Vehicle) (i j : Nat) :
    vehicleDeliveryStops ((v.add_stop caps dem j none true).1) i =
      vehicleDeliveryStops v i := by
  rw [add_stop_warehouse]
  simp [vehicleDeliveryStops, List.filter_append]

/-- A delivery `add_stop` adds at most one delivery stop, at its target. -/
theorem vds_add_stop_delivery (caps dem : List Qty) (v : Vehicle)
    (ptIdx i : Nat) (da : Option Qty) :
    vehicleDeliveryStops ((v.add_stop caps dem ptIdx da false).1) i ≤
      vehicleDeliveryStops v i + (if ptIdx = i then 1 else 0) := by
  simp only [Vehicle.add_stop]
  split
  · split <;> (dsimp only; omega)
  · simp only [vehicleDeliveryStops, List.filter_append, List.length_append]
    by_cases hpi : ptIdx = i
    · subst hpi
      simp
    · simp [hpi, beq_iff_eq]

theorem vds_reload (caps : List Qty) (v : Vehicle) (i : Nat) :
    vehicleDeliveryStops (v.reload caps) i = vehicleDeliveryStops v i := rfl

theorem vds_calc (d : Nat → Nat → ℚ) (v : Vehicle) (i : Nat) :
    vehicleDeliveryStops (calculate_vehicle_distance d v) i =
      vehicleDeliveryStops v i := rfl

/-- Replacing one vehicle changes the fleet count by at most the change in
that vehicle's count. -/
theorem deliveryStops_set_le (vs : List Vehicle) (bi : Nat) (v : Vehicle)
    (i c : Nat)
    (h : vehicleDeliveryStops v i ≤ vehicleDeliveryStops (vs.getD bi default) i + c) :
    deliveryStops (vs.set bi v) i ≤ deliveryStops vs i + c := by
  induction vs generalizing bi with
  | nil => simp [deliveryStops]
  | cons u rest ih =>
    cases bi with
    | zero =>
      simp only [List.set, deliveryStops_cons]
      have : vehicleDeliveryStops v i ≤ vehicleDeliveryStops u i + c := h
      omega
    | succ bi =>
      simp only [List.set, deliveryStops_cons]
      have := ih bi h
      omega

/-- `_reload_all_empty_vehicles` adds no delivery stop. -/
theorem reload_all_stops (caps dem : List Qty) :
    ∀ (vs : List Vehicle) (i : Nat),
      deliveryStops (reload_all_empty_vehicles caps dem vs).1 i =
        deliveryStops vs i := by
  intro vs
  induction vs with
  | nil => intro i; rfl
  | cons v rest ih =>
    intro i
    simp only [reload_all_empty_vehicles, add_stop_warehouse]
    split
    · split
      · simp only [deliveryStops_cons, vds_reload]
        rw [ih i]
        have h3 := vds_add_stop_warehouse caps dem v i 0
        rw [add_stop_warehouse] at h3
        dsimp only at h3 ⊢
        rw [h3]
      · simp only [deliveryStops_cons, vds_reload]
        rw [ih i]
    · simp only [deliveryStops_cons]
      rw [ih i]

/-- The serving loop appends at most `fuel` delivery stops, all at its
target point. -/
theorem serveLoop_stops (d : Nat → Nat → ℚ) (ptIdx : Nat) :
    ∀ (fuel attempts : Nat) (st st' : DecodeSt) (a' : Nat),
      serveLoop d ptIdx fuel attempts st = .ok (st', a') →
      ∀ i, deliveryStops st'.vehicles i ≤
        deliveryStops st.vehicles i + (if ptIdx = i then fuel else 0) := by
  intro fuel
  induction fuel with
  | zero =>
    intro attempts st st' a' h i
    rw [serveLoop] at h
    split at h <;>
      (simp only [Except.ok.injEq, Prod.mk.injEq] at h
       rw [← h.1]
       omega)
  | succ fuel ih =>
    intro attempts st st' a' h i
    rw [serveLoop] at h
    split at h
    case isFalse =>
      simp only [Except.ok.injEq, Prod.mk.injEq] at h
      rw [← h.1]
      omega
    case isTrue hcond =>
      have hstep : ∀ (st0 : DecodeSt) (bi : Nat),
          deliveryStops st0.vehicles i = deliveryStops st.vehicles i →
          (let v := st0.vehicles.getD bi default
           let delivery := calculate_possible_delivery st0.caps st0.dem v ptIdx
           if noDelivery delivery then
             if (v.current_load.get st0.caps).total = 0 then
               let (v1, dem1, caps1) := v.add_stop st0.caps st0.dem 0 none true
               let v2 := v1.reload caps1
               serveLoop d ptIdx fuel (attempts + 1)
                 ⟨dem1, caps1, st0.vehicles.set bi v2⟩
             else .error .hasLoadCantDeliver
           else
             let (v1, dem1, caps1) :=
               v.add_stop st0.caps st0.dem ptIdx (some delivery) false
             let (r, caps2) := writeRef caps1 v1.current_load (fun l => l.sub delivery)
             let v2 := { v1 with current_load := r }
             let dem2 := dem1.set ptIdx ((dem1.getD ptIdx Qty.zero).sub delivery)
             serveLoop d ptIdx fuel (attempts + 1)
               ⟨dem2, caps2, st0.vehicles.set bi v2⟩) = .ok (st', a') →
          deliveryStops st'.vehicles i ≤
            deliveryStops st.vehicles i + (if ptIdx = i then fuel + 1 else 0) := by
        intro st0 bi h0 hbody
        simp only at hbody
        split at hbody
        · split at hbody
          · rcases haw : (st0.vehicles.getD bi default).add_stop st0.caps st0.dem
                0 none true with ⟨v1, dem1, caps1⟩
            rw [haw] at hbody
            simp only at hbody
            have h1 := ih (attempts + 1) _ st' a' hbody i
            dsimp only at h1
            have h3 := vds_add_stop_warehouse st0.caps st0.dem
              (st0.vehicles.getD bi default) i 0
            rw [haw] at h3
            dsimp only at h3
            have h2 : deliveryStops (st0.vehicles.set bi (v1.reload caps1)) i ≤
                deliveryStops st0.vehicles i + 0 :=
              deliveryStops_set_le st0.vehicles bi (v1.reload caps1) i 0
                (by rw [vds_reload, h3]; omega)
            by_cases hpi : ptIdx = i
            · simp only [if_pos hpi] at h1 ⊢; omega
            · simp only [if_neg hpi] at h1 ⊢; omega
          · exact absurd hbody (by simp)
        · rcases ha : (st0.vehicles.getD bi default).add_stop st0.caps st0.dem ptIdx
              (some (calculate_possible_delivery st0.caps st0.dem
                (st0.vehicles.getD bi default) ptIdx)) false with ⟨v1, dem1, caps1⟩
          have hvds := vds_add_stop_delivery st0.caps st0.dem
            (st0.vehicles.getD bi default) ptIdx i
            (some (calculate_possible_delivery st0.caps st0.dem
              (st0.vehicles.getD bi default) ptIdx))
          rw [ha] at hvds
          simp only at hvds
          rw [ha] at hbody
          simp only at hbody
          rcases hw : writeRef caps1 v1.current_load
              (fun l => l.sub (calculate_possible_delivery st0.caps st0.dem
                (st0.vehicles.getD bi default) ptIdx)) with ⟨r, caps2⟩
          rw [hw] at hbody
          simp only at hbody
          have h1 := ih (attempts + 1) _ st' a' hbody i
          dsimp only at h1
          have h2 : deliveryStops (st0.vehicles.set bi
              { v1 with current_load := r }) i ≤
              deliveryStops st0.vehicles i + (if ptIdx = i then 1 else 0) := by
            apply deliveryStops_set_le
            have h4 : vehicleDeliveryStops { v1 with current_load := r } i =
                vehicleDeliveryStops v1 i := rfl
            omega
          by_cases hpi : ptIdx = i
          · simp only [if_pos hpi] at h1 h2 ⊢; omega
          · simp only [if_neg hpi] at h1 h2 ⊢; omega
      rcases hfb : find_best_available_vehicle d st.caps st.dem st.vehicles ptIdx with
        _ | bi
      · rw [hfb] at h
        simp only at h
        rcases hvdc : reload_all_empty_vehicles st.caps st.dem st.vehicles with
          ⟨vehicles1, dem1, caps1⟩
        have hra := reload_all_stops st.caps st.dem st.vehicles i
        rw [hvdc] at hra h
        simp only at hra h
        rcases hfb2 : find_best_available_vehicle d caps1 dem1 vehicles1 ptIdx with
          _ | bi
        · rw [hfb2] at h
          simp at h
        · rw [hfb2] at h
          simp only at h
          exact hstep ⟨dem1, caps1, vehicles1⟩ bi hra h
      · rw [hfb] at h
        simp only at h
        exact hstep st bi rfl h

end VRP

namespace VRP

/-- `_ensure_point_fully_served` records at most `max_attempts` delivery
stops, all at its target. -/
theorem ensure_stops (d : Nat → Nat → ℚ) (ptIdx : Nat) (st st' : DecodeSt)
    (h : ensure_point_fully_served d ptIdx st = .ok st') (i : Nat) :
    deliveryStops st'.vehicles i ≤
      deliveryStops st.vehicles i + (if ptIdx = i then max_attempts else 0) := by
  simp only [ensure_point_fully_served, bind, Except.bind] at h
  rcases hsl : serveLoop d ptIdx max_attempts 0 st with e | ⟨st1, a1⟩
  · rw [hsl] at h; simp at h
  · rw [hsl] at h
    simp only at h
    split at h
    · simp at h
    · simp only [Except.ok.injEq] at h
      subst h
      exact serveLoop_stops d ptIdx max_attempts 0 st st1 a1 hsl i

/-- The loop over the individual records at most `max_attempts` delivery
stops per occurrence of a point in the individual. -/
theorem serveAll_stops (d : Nat → Nat → ℚ) :
    ∀ (ind : List Nat) (st : DecodeSt) (visited : List Nat)
      (st' : DecodeSt) (visited' : List Nat),
      serveAll d ind st visited = .ok (st', visited') →
      ∀ i, deliveryStops st'.vehicles i ≤
        deliveryStops st.vehicles i + max_attempts * ind.count i := by
  intro ind
  induction ind with
  | nil =>
    intro st visited st' visited' h i
    simp only [serveAll, Except.ok.injEq, Prod.mk.injEq] at h
    rw [← h.1]
    omega
  | cons j rest ih =>
    intro st visited st' visited' h i
    simp only [serveAll, bind, Except.bind] at h
    rcases he : ensure_point_fully_served d j st with e | st1
    · rw [he] at h; simp at h
    · rw [he] at h
      simp only at h
      have h1 := ih st1 (visited ++ [j]) st' visited' h i
      have h2 := ensure_stops d j st st1 he i
      have hcount : (j :: rest).count i = rest.count i + (if j = i then 1 else 0) := by
        simp only [List.count_cons]
        by_cases hji : i = j
        · simp [hji]
        · simp [hji, Ne.symm hji, beq_iff_eq]
      rw [hcount]
      by_cases hji : j = i
      · simp only [if_pos hji] at h2 ⊢
        have : max_attempts * (rest.count i + 1) =
            max_attempts * rest.count i + max_attempts := by ring
        omega
      · simp only [if_neg hji, Nat.add_zero] at h2 ⊢
        omega

/-- The opening per-vehicle loop records no delivery stop. -/
theorem initialVehicleLoop_stops (d : Nat → Nat → ℚ) :
    ∀ (vs : List Vehicle) (dem caps : List Qty) (i : Nat),
      deliveryStops (initialVehicleLoop d vs dem caps).1 i =
        deliveryStops vs i := by
  intro vs
  induction vs with
  | nil => intro dem caps i; rfl
  | cons v rest ih =>
    intro dem caps i
    simp only [initialVehicleLoop, add_stop_warehouse]
    split
    · simp only [deliveryStops_cons, vds_calc]
      rw [ih]
      have h3 := vds_add_stop_warehouse caps dem v i 0
      rw [add_stop_warehouse] at h3
      dsimp only at h3 ⊢
      have h4 := vds_add_stop_warehouse caps dem (Vehicle.reload caps
        { v with route := v.route ++
          [⟨0, Qty.zero, v.current_load.get caps, none, true⟩] }) i 0
      rw [add_stop_warehouse] at h4
      dsimp only at h4 ⊢
      rw [h4, vds_reload, h3]
    · split
      · simp only [deliveryStops_cons, vds_calc]
        rw [ih]
        have h3 := vds_add_stop_warehouse caps dem v i 0
        rw [add_stop_warehouse] at h3
        dsimp only at h3 ⊢
        rw [h3]
      · simp only [deliveryStops_cons]
        rw [ih]

/-- The closing per-vehicle loop records no delivery stop. -/
theorem finalVehicleLoop_stops (d : Nat → Nat → ℚ) :
    ∀ (vs : List Vehicle) (dem caps : List Qty) (i : Nat),
      deliveryStops (finalVehicleLoop d vs dem caps).1 i =
        deliveryStops vs i := by
  intro vs
  induction vs with
  | nil => intro dem caps i; rfl
  | cons v rest ih =>
    intro dem caps i
    simp only [finalVehicleLoop, add_stop_warehouse]
    split
    · simp only [deliveryStops_cons, vds_calc]
      rw [ih]
      have h3 := vds_add_stop_warehouse caps dem v i 0
      rw [add_stop_warehouse] at h3
      dsimp only at h3 ⊢
      rw [h3]
    · simp only [deliveryStops_cons, vds_calc]
      rw [ih]

/-- A fresh fleet has no delivery stops at all. -/
theorem mkFleet_stops (spec : List VType) (fleet : List Vehicle)
    (h : mkFleet 1 0 spec = .ok fleet) (i : Nat) :
    deliveryStops fleet i = 0 := by
  have hfresh := mkFleet_fresh spec 1 0 fleet h
  clear h
  induction fleet with
  | nil => rfl
  | cons v rest ih =>
    rw [deliveryStops_cons]
    have h1 : vehicleDeliveryStops v i = 0 := by
      have := (hfresh v (List.mem_cons_self _ _)).2
      simp [vehicleDeliveryStops, this]
    rw [h1, ih (fun u hu => hfresh u (List.mem_cons_of_mem _ hu))]

/-- C5 (amended): the per-point serving loop of the decoder is bounded by
the fixed retry cap of `max_attempts = 50` iterations, so decoding always
terminates; in particular a successful decode records at most 50 delivery
stops per occurrence of a point in the individual.  (The original claim's
other half is false — see the counterexample: a total fleet capacity below
the total demand does not force an Infeasible error, both because vehicles
reload at the warehouse and because the double demand decrement can end
the loop early.) -/
theorem C5_serving_loop_bounded (d : Nat → Nat → ℚ) (td : List Qty)
    (spec : List VType) (ind : List Nat) (σ : List Qty)
    (h : planIsOk (create_delivery_plan d td spec ind σ) = true) :
    ∀ i, deliveryStops (vehiclesOf (create_delivery_plan d td spec ind σ)) i ≤
      max_attempts * ind.count i := by
  rcases hr : create_delivery_plan d td spec ind σ with e | ⟨vs, dem, caps⟩
  · rw [hr] at h; simp [planIsOk] at h
  · intro i
    simp only [vehiclesOf]
    obtain ⟨fleet, st, visited, hmk, hsv, hvs, hdem, hcaps⟩ :=
      create_delivery_plan_ok_dissect d td spec ind σ vs dem caps hr
    have h1 := serveAll_stops d ind _ [] st visited hsv i
    dsimp only at h1
    rw [initialVehicleLoop_stops, mkFleet_stops spec fleet hmk i] at h1
    rw [hvs, finalVehicleLoop_stops]
    omega

/-- Witness for C5's amended bound on the concrete input S1. -/
theorem C5_serving_loop_bounded_witness :
    deliveryStops (vehiclesOf (create_delivery_plan dS tdS1 specS1 [1] tdS1)) 1 ≤
      max_attempts * ([1] : List Nat).count 1 :=
  C5_serving_loop_bounded dS tdS1 specS1 [1] tdS1 (by with_unfolding_all decide) 1

end VRP

namespace VRP

/-- Possible deliveries are componentwise nonnegative. -/
theorem cpd_nonneg (caps dem : List Qty) (v : Vehicle) (ptIdx : Nat) (p : Product) :
    0 ≤ (calculate_possible_delivery caps dem v ptIdx).get p := by
  cases p <;>
    (dsimp only [calculate_possible_delivery, Qty.map2, Qty.get]
     split_ifs <;> omega)

/-- A candidate's possible delivery has positive total. -/
theorem cpd_total_pos (caps dem : List Qty) (v : Vehicle) (ptIdx : Nat)
    (h : (calculate_possible_delivery caps dem v ptIdx).anyPos = true) :
    0 < (calculate_possible_delivery caps dem v ptIdx).total := by
  have ho := cpd_nonneg caps dem v ptIdx .orange
  have ht := cpd_nonneg caps dem v ptIdx .tuna
  have hu := cpd_nonneg caps dem v ptIdx .uranium
  simp only [Qty.anyPos, Bool.or_eq_true, decide_eq_true_eq] at h
  simp only [Qty.get] at ho ht hu
  simp only [Qty.total]
  rcases h with (h | h) | h <;> linarith

/-- A candidate's score is positive for nonnegative distances. -/
theorem vehicle_score_pos (d : Nat → Nat → ℚ) (caps dem : List Qty)
    (ptIdx : Nat) (v : Vehicle) (h0 : ∀ a b, 0 ≤ d a b)
    (h : isCandidate caps dem ptIdx v = true) :
    0 < vehicle_score d caps dem ptIdx v := by
  simp only [vehicle_score]
  apply div_pos
  · exact_mod_cast cpd_total_pos caps dem v ptIdx h
  · have := h0 (get_vehicle_current_position v) ptIdx
    linarith

/-- The scan of `_find_best_available_vehicle` returns the first candidate
of maximal score: soundness of the fold with its running best. -/
theorem find_best_aux_spec (d : Nat → Nat → ℚ) (caps dem : List Qty)
    (ptIdx : Nat) (h0 : ∀ a b, 0 ≤ d a b) (vehicles : List Vehicle) :
    ∀ (rest : List Vehicle) (k : Nat) (best : Option Nat) (bs : ℚ),
      rest = vehicles.drop k →
      (match best with
       | none => bs = -1 ∧
           ∀ j, j < k → isCandidate caps dem ptIdx (vehicles.getD j default) = false
       | some b => b < k ∧ b < vehicles.length ∧
           isCandidate caps dem ptIdx (vehicles.getD b default) = true ∧
           bs = vehicle_score d caps dem ptIdx (vehicles.getD b default) ∧
           ∀ j, j < k → isCandidate caps dem ptIdx (vehicles.getD j default) = true →
             (vehicle_score d caps dem ptIdx (vehicles.getD j default) ≤ bs ∧
              (j < b → vehicle_score d caps dem ptIdx (vehicles.getD j default) < bs))) →
      ∀ i, find_best_aux d caps dem ptIdx rest k best bs = some i →
        i < vehicles.length ∧
        isCandidate caps dem ptIdx (vehicles.getD i default) = true ∧
        ∀ j, j < vehicles.length →
          isCandidate caps dem ptIdx (vehicles.getD j default) = true →
          (vehicle_score d caps dem ptIdx (vehicles.getD j default) ≤
             vehicle_score d caps dem ptIdx (vehicles.getD i default) ∧
           (j < i → vehicle_score d caps dem ptIdx (vehicles.getD j default) <
             vehicle_score d caps dem ptIdx (vehicles.getD i default))) := by
  intro rest
  induction rest with
  | nil =>
    intro k best bs hrest hinv i hfb
    rcases best with _ | b
    · simp [find_best_aux] at hfb
    · simp only [find_best_aux, Option.some.injEq] at hfb
      subst hfb
      obtain ⟨hbk, hbl, hbc, hbs, hball⟩ := hinv
      have hlen : vehicles.length ≤ k :=
        List.drop_eq_nil_iff_le.mp hrest.symm
      refine ⟨hbl, hbc, fun j hj hcj => ?_⟩
      have := hball j (by omega) hcj
      rw [hbs] at this
      exact this
  | cons v rest2 ih =>
    intro k best bs hrest hinv i hfb
    have hk : k < vehicles.length := by
      by_contra hge
      rw [List.drop_eq_nil_iff_le.mpr (by omega)] at hrest
      exact (List.cons_ne_nil v rest2) hrest
    have hv : vehicles.getD k default = v := by
      have h1 : vehicles.get? k = some v := by
        have h2 : (vehicles.drop k).get? 0 = some v := by
          rw [← hrest]; rfl
        rw [List.get?_drop] at h2
        simpa using h2
      rw [List.get?_eq_getElem?] at h1
      simp [List.getD, h1]
    have hrest2 : rest2 = vehicles.drop (k + 1) := by
      have h1 : (vehicles.drop k).drop 1 = vehicles.drop (k + 1) := by
        rw [List.drop_drop]
      rw [← hrest] at h1
      simpa using h1
    simp only [find_best_aux] at hfb
    split at hfb
    case isTrue hskip =>
      -- not a candidate at position k
      have hnc : isCandidate caps dem ptIdx (vehicles.getD k default) = false := by
        rw [hv]
        simp only [noDelivery, Bool.not_eq_true'] at hskip
        exact hskip
      rcases best with _ | b
      · refine ih (k + 1) none bs hrest2 ⟨hinv.1, fun j hj => ?_⟩ i hfb
        rcases Nat.lt_or_ge j k with hjk | hjk
        · exact hinv.2 j hjk
        · have : j = k := by omega
          exact this ▸ hnc
      · obtain ⟨hbk, hbl, hbc, hbs, hball⟩ := hinv
        refine ih (k + 1) (some b) bs hrest2
          ⟨by omega, hbl, hbc, hbs, fun j hj hcj => ?_⟩ i hfb
        rcases Nat.lt_or_ge j k with hjk | hjk
        · exact hball j hjk hcj
        · have : j = k := by omega
          rw [this, hnc] at hcj
          exact absurd hcj (by simp)
    case isFalse hcand =>
      have hc : isCandidate caps dem ptIdx (vehicles.getD k default) = true := by
        rw [hv]
        simp only [isCandidate]
        rcases hb : (calculate_possible_delivery caps dem v ptIdx).anyPos
        · exact absurd (by simp [noDelivery, hb]) hcand
        · rfl
      have hscore : ((calculate_possible_delivery caps dem v ptIdx).total : ℚ) /
          (d (get_vehicle_current_position v) ptIdx + 1) =
          vehicle_score d caps dem ptIdx (vehicles.getD k default) := by
        rw [hv]; rfl
      split at hfb
      case isTrue hlt =>
        -- new best at position k
        rcases best with _ | b
        · obtain ⟨hbs1, hnone⟩ := hinv
          refine ih (k + 1) (some k) _ hrest2
            ⟨by omega, hk, hc, hscore, fun j hj hcj => ?_⟩ i hfb
          rcases Nat.lt_or_ge j k with hjk | hjk
          · rw [hnone j hjk] at hcj
            exact absurd hcj (by simp)
          · have hjeq : j = k := by omega
            subst hjeq
            exact ⟨le_of_eq hscore.symm, fun hjj => absurd hjj (by omega)⟩
        · obtain ⟨hbk, hbl, hbc, hbs, hball⟩ := hinv
          refine ih (k + 1) (some k) _ hrest2
            ⟨by omega, hk, hc, hscore, fun j hj hcj => ?_⟩ i hfb
          rcases Nat.lt_or_ge j k with hjk | hjk
          · have h2 := (hball j hjk hcj).1
            exact ⟨by linarith, fun _ => by linarith⟩
          · have hjeq : j = k := by omega
            subst hjeq
            exact ⟨le_of_eq hscore.symm, fun hjj => absurd hjj (by omega)⟩
      case isFalse hnlt =>
        rcases best with _ | b
        · obtain ⟨hbs1, hnone⟩ := hinv
          exfalso
          have hpos := vehicle_score_pos d caps dem ptIdx
            (vehicles.getD k default) h0 hc
          rw [← hscore] at hpos
          rw [hbs1] at hnlt
          push_neg at hnlt
          linarith
        · obtain ⟨hbk, hbl, hbc, hbs, hball⟩ := hinv
          refine ih (k + 1) (some b) bs hrest2
            ⟨by omega, hbl, hbc, hbs, fun j hj hcj => ?_⟩ i hfb
          rcases Nat.lt_or_ge j k with hjk | hjk
          · exact hball j hjk hcj
          · have hjeq : j = k := by omega
            subst hjeq
            push_neg at hnlt
            rw [hscore] at hnlt
            exact ⟨hnlt, fun hjb => absurd hjb (by omega)⟩

/-- C4 (amended): `_find_best_available_vehicle` returns the vehicle
maximising the code's score `possible_delivery_total / (distance_to_point
+ 1.0)` — with no point-to-warehouse term, unlike the claimed formula —
restricted to candidates (vehicles with a non-empty positive possible
delivery), ties resolved in favour of the first vehicle in fleet
enumeration order. -/
theorem C4_find_best_is_first_argmax (d : Nat → Nat → ℚ) (caps dem : List Qty)
    (vehicles : List Vehicle) (ptIdx i : Nat)
    (h0 : ∀ a b, 0 ≤ d a b)
    (hi : find_best_available_vehicle d caps dem vehicles ptIdx = some i) :
    i < vehicles.length ∧
    isCandidate caps dem ptIdx (vehicles.getD i default) = true ∧
    ∀ j, j < vehicles.length →
      isCandidate caps dem ptIdx (vehicles.getD j default) = true →
      (vehicle_score d caps dem ptIdx (vehicles.getD j default) ≤
         vehicle_score d caps dem ptIdx (vehicles.getD i default) ∧
       (j < i → vehicle_score d caps dem ptIdx (vehicles.getD j default) <
         vehicle_score d caps dem ptIdx (vehicles.getD i default))) :=
  find_best_aux_spec d caps dem ptIdx h0 vehicles vehicles 0 none (-1) rfl
    ⟨rfl, fun j hj => absurd hj (Nat.not_lt_zero j)⟩ i hi

/-- The counterexample distance table is nonnegative. -/
theorem dC4_nonneg : ∀ a b, 0 ≤ dC4 a b := by
  intro a b
  simp only [dC4]
  split_ifs <;> norm_num

/-- Witness for C4's amended characterization on the concrete two-vehicle
fleet. -/
theorem C4_find_best_is_first_argmax_witness :
    0 < ([vC4a, vC4b] : List Vehicle).length ∧
    isCandidate [] demC4 1 (([vC4a, vC4b] : List Vehicle).getD 0 default) = true ∧
    ∀ j, j < ([vC4a, vC4b] : List Vehicle).length →
      isCandidate [] demC4 1 (([vC4a, vC4b] : List Vehicle).getD j default) = true →
      (vehicle_score dC4 [] demC4 1 (([vC4a, vC4b] : List Vehicle).getD j default) ≤
         vehicle_score dC4 [] demC4 1 (([vC4a, vC4b] : List Vehicle).getD 0 default) ∧
       (j < 0 → vehicle_score dC4 [] demC4 1 (([vC4a, vC4b] : List Vehicle).getD j default) <
         vehicle_score dC4 [] demC4 1 (([vC4a, vC4b] : List Vehicle).getD 0 default))) :=
  C4_find_best_is_first_argmax dC4 [] demC4 [vC4a, vC4b] 1 0 dC4_nonneg
    (by with_unfolding_all decide)

end VRP
namespace VRP

/-! ## Ordered crossover: permutation validity (C7) -/

/-- `countNone` distributes over append. -/
theorem countNone_append {α : Type} (l₁ l₂ : List (Option α)) :
    countNone (l₁ ++ l₂) = countNone l₁ + countNone l₂ := by
  induction l₁ with
  | nil => simp [countNone]
  | cons hd tl ih =>
    rcases hd with _ | a
    · simp [countNone, ih]
      omega
    · simp [countNone, ih]

/-- `countNone` of a run of `none`s. -/
theorem countNone_replicate {α : Type} (n : Nat) :
    countNone (List.replicate n (none : Option α)) = n := by
  induction n with
  | zero => rfl
  | succ m ih => simp [List.replicate_succ, countNone, ih]

/-- Filled cells contribute nothing to `countNone`. -/
theorem countNone_map_some {α : Type} (l : List α) :
    countNone (l.map some) = 0 := by
  induction l with
  | nil => rfl
  | cons hd tl ih => simp [countNone, ih]

/-- The scan `advanceFrom` returns exactly the head of the filtered
not-yet-placed stream, with its absolute index, and the stream decomposes
accordingly. -/
theorem advanceFrom_spec {α : Type} [DecidableEq α] (child : List (Option α)) :
    ∀ (suf : List α) (idx : Nat),
      suf.filter (fun x => !decide (some x ∈ child)) ≠ [] →
      ∃ k a, advanceFrom child suf idx = some (idx + k, a) ∧
        suf.drop k = a :: suf.drop (k + 1) ∧
        suf.filter (fun x => !decide (some x ∈ child)) =
          a :: (suf.drop (k + 1)).filter (fun x => !decide (some x ∈ child)) := by
  intro suf
  induction suf with
  | nil => intro idx h; exact absurd rfl h
  | cons b rest ih =>
    intro idx h
    by_cases hb : some b ∈ child
    · have hfil : (b :: rest).filter (fun x => !decide (some x ∈ child)) =
          rest.filter (fun x => !decide (some x ∈ child)) := by
        simp [List.filter_cons, hb]
      rw [hfil] at h
      obtain ⟨k, a, h1, h3, h4⟩ := ih (idx + 1) h
      have hik : idx + 1 + k = idx + (k + 1) := by omega
      refine ⟨k + 1, a, ?_, ?_, ?_⟩
      · rw [advanceFrom, if_pos hb, h1, hik]
      · simpa [List.drop_succ_cons] using h3
      · rw [hfil]
        simpa [List.drop_succ_cons] using h4
    · refine ⟨0, b, ?_, by simp, ?_⟩
      · rw [advanceFrom, if_neg hb]
        rfl
      · simp [List.filter_cons, hb]

/-- Main specification of the fill loop: when the not-yet-placed stream is
at least as long as the number of empty cells, `oxFill` succeeds and
returns the child with its `none` cells replaced, left to right, by the
stream's elements in order. -/
theorem oxFill_spec {α : Type} [DecidableEq α] (p2 : List α) (hnd : p2.Nodup) :
    ∀ (todo done : List (Option α)) (idx : Nat),
      countNone todo ≤
        ((p2.drop idx).filter
          (fun x => !decide (some x ∈ done.reverse ++ todo))).length →
      oxFill p2 done todo idx =
        some (done.reverse ++
          fillNones todo
            ((p2.drop idx).filter
              (fun x => !decide (some x ∈ done.reverse ++ todo)))) := by
  intro todo
  induction todo with
  | nil =>
    intro done idx _
    simp [oxFill, fillNones]
  | cons hd tl ih =>
    intro done idx hcount
    rcases hd with _ | a
    · -- an unfilled cell: the scan finds the next usable parent-2 element
      have hne : (p2.drop idx).filter
          (fun x => !decide (some x ∈ done.reverse ++ none :: tl)) ≠ [] := by
        intro h0
        rw [h0] at hcount
        simp only [countNone, List.length_nil] at hcount
        omega
      obtain ⟨k, a, hadv, hdk, hfil⟩ :=
        advanceFrom_spec (done.reverse ++ none :: tl) (p2.drop idx) idx hne
      have hsufnd : (p2.drop idx).Nodup :=
        List.Nodup.sublist (List.drop_sublist idx p2) hnd
      have hnd1 : ((p2.drop idx).drop k).Nodup :=
        List.Nodup.sublist (List.drop_sublist k (p2.drop idx)) hsufnd
      rw [hdk] at hnd1
      have ha_not : a ∉ (p2.drop idx).drop (k + 1) := (List.nodup_cons.mp hnd1).1
      have hcongr : ∀ x ∈ (p2.drop idx).drop (k + 1),
          (!decide (some x ∈ (some a :: done).reverse ++ tl)) =
            (!decide (some x ∈ done.reverse ++ none :: tl)) := by
        intro x hx
        have hxa : x ≠ a := by
          intro hx0
          exact ha_not (hx0 ▸ hx)
        have hiff : (some x ∈ (some a :: done).reverse ++ tl) ↔
            (some x ∈ done.reverse ++ none :: tl) := by
          simp [List.reverse_cons, List.mem_append, List.mem_cons, hxa]
        rw [decide_eq_decide.mpr hiff]
      have hdd : (p2.drop idx).drop (k + 1) = p2.drop (idx + k + 1) := by
        rw [List.drop_drop, Nat.add_assoc]
      have hlen1 : ((p2.drop idx).filter
          (fun x => !decide (some x ∈ done.reverse ++ none :: tl))).length =
          (((p2.drop idx).drop (k + 1)).filter
            (fun x => !decide (some x ∈ done.reverse ++ none :: tl))).length + 1 := by
        rw [hfil]
        rfl
      have hcount2 : countNone tl ≤
          ((p2.drop (idx + k + 1)).filter
            (fun x => !decide (some x ∈ (some a :: done).reverse ++ tl))).length := by
        rw [← hdd, List.filter_congr hcongr]
        simp only [countNone] at hcount
        omega
      have h2 := ih (some a :: done) (idx + k + 1) hcount2
      rw [← hdd, List.filter_congr hcongr] at h2
      have heq : oxFill p2 done (none :: tl) idx =
          oxFill p2 (some a :: done) tl (idx + k + 1) := by
        rw [oxFill, hadv]
      rw [heq, h2, hfil]
      simp [fillNones, List.append_assoc]
    · -- an already-filled cell passes through unchanged
      have hchild : ((some a :: done).reverse : List (Option α)) ++ tl =
          done.reverse ++ some a :: tl := by
        simp
      have h2 := ih (some a :: done) idx (by
        rw [hchild]
        simpa [countNone] using hcount)
      rw [hchild] at h2
      have heq : oxFill p2 done (some a :: tl) idx =
          oxFill p2 (some a :: done) tl idx := by
        rw [oxFill]
      rw [heq, h2]
      simp [fillNones, List.append_assoc]

/-- `fillNones` walks a leading run of `none`s by consuming the stream. -/
theorem fillNones_replicate {α : Type} (n : Nat) :
    ∀ (rest : List (Option α)) (xs : List α), n ≤ xs.length →
      fillNones (List.replicate n none ++ rest) xs =
        (xs.take n).map some ++ fillNones rest (xs.drop n) := by
  induction n with
  | zero => intro rest xs _; simp
  | succ m ihm =>
    intro rest xs h
    rcases xs with _ | ⟨x, xs2⟩
    · simp only [List.length_nil] at h
      omega
    · rw [List.replicate_succ, List.cons_append, fillNones,
        ihm rest xs2 (by simpa using h)]
      simp

/-- `fillNones` passes a run of already-filled cells through unchanged. -/
theorem fillNones_map_some {α : Type} (l : List α) (rest : List (Option α))
    (xs : List α) :
    fillNones (l.map some ++ rest) xs = l.map some ++ fillNones rest xs := by
  induction l with
  | nil => simp
  | cons b l2 ihl => simp [fillNones, ihl]

/-- A trailing run of `none`s absorbs a prefix of the stream. -/
theorem fillNones_replicate_all {α : Type} (n : Nat) (xs : List α)
    (h : n ≤ xs.length) :
    fillNones (List.replicate n (none : Option α)) xs = (xs.take n).map some := by
  rw [← List.append_nil (List.replicate n (none : Option α)),
    fillNones_replicate n [] xs h]
  simp [fillNones]

end VRP
namespace VRP

/-- C7: for parents that are permutations of a common duplicate-free
element set and any valid cut pair `start < endIdx < length`,
`ordered_crossover` (solver.py:60-73) succeeds and returns a fully filled
child that is again a permutation of that set, carries parent 1's slice
`[start, endIdx]` at the identical positions, and fills the remaining
positions, left to right, with parent 2's elements in their original
relative order, skipping the elements already placed (so the non-slice
positions, read left to right, are exactly parent 2 filtered by
non-membership in the slice). -/
theorem C7_ordered_crossover_permutation {α : Type} [DecidableEq α]
    (p1 p2 : List α) (start endIdx : Nat)
    (hnd : p1.Nodup) (hperm : p2.Perm p1)
    (hse : start < endIdx) (hlen : endIdx < p1.length) :
    ∃ c : List α,
      ordered_crossover p1 p2 start endIdx = some (c.map some) ∧
      c.length = p1.length ∧
      c.Perm p1 ∧
      (c.take (endIdx + 1)).drop start = (p1.take (endIdx + 1)).drop start ∧
      c.take start ++ c.drop (endIdx + 1) =
        p2.filter (fun x => !decide (x ∈ (p1.take (endIdx + 1)).drop start)) := by
  set slice := (p1.take (endIdx + 1)).drop start with hslice
  set S := p2.filter (fun x => !decide (x ∈ slice)) with hS
  have hslice_len : slice.length = endIdx + 1 - start := by
    rw [hslice]
    simp only [List.length_drop, List.length_take]
    omega
  have hp1take : (p1.take (endIdx + 1)).take start = p1.take start := by
    rw [List.take_take]
    congr 1
    omega
  have hp1dec : p1.take start ++ slice ++ p1.drop (endIdx + 1) = p1 := by
    rw [hslice, ← hp1take, List.take_append_drop, List.take_append_drop]
  have hnd1 : (p1.take start ++ slice ++ p1.drop (endIdx + 1)).Nodup := by
    rw [hp1dec]
    exact hnd
  have hdisj1 : List.Disjoint (p1.take start ++ slice) (p1.drop (endIdx + 1)) :=
    (List.nodup_append.mp hnd1).2.2
  have hnd3 := (List.nodup_append.mp hnd1).1
  have hdisj2 : List.Disjoint (p1.take start) slice :=
    (List.nodup_append.mp hnd3).2.2
  have hq1 : (p1.take start).filter (fun x => !decide (x ∈ slice)) = p1.take start :=
    List.filter_eq_self.mpr fun a ha => by
      simpa using fun h => hdisj2 ha h
  have hq2 : slice.filter (fun x => !decide (x ∈ slice)) = [] :=
    List.filter_eq_nil_iff.mpr fun a ha => by simp [ha]
  have hq3 : (p1.drop (endIdx + 1)).filter (fun x => !decide (x ∈ slice)) =
      p1.drop (endIdx + 1) :=
    List.filter_eq_self.mpr fun a ha => by
      simpa using fun h => hdisj1 (List.mem_append.mpr (Or.inr h)) ha
  have hfp1 : p1.filter (fun x => !decide (x ∈ slice)) =
      p1.take start ++ p1.drop (endIdx + 1) := by
    conv_lhs => rw [← hp1dec]
    rw [List.filter_append, List.filter_append, hq1, hq2, hq3, List.append_nil]
  have hSperm : S.Perm (p1.filter (fun x => !decide (x ∈ slice))) := by
    rw [hS]
    exact hperm.filter _
  have hSlen : S.length = start + (p1.length - (endIdx + 1)) := by
    rw [hSperm.length_eq, hfp1]
    simp only [List.length_append, List.length_take, List.length_drop]
    omega
  have hcN : countNone (initChild p1 start endIdx) =
      start + (p1.length - (endIdx + 1)) := by
    rw [initChild, countNone_append, countNone_append, countNone_replicate,
      countNone_replicate, countNone_map_some]
    omega
  have hp2nd : p2.Nodup := hperm.nodup_iff.mpr hnd
  have hmem : ∀ x : α, (some x ∈ initChild p1 start endIdx) ↔ x ∈ slice := by
    intro x
    rw [initChild, ← hslice]
    simp [List.mem_append, List.mem_replicate, List.mem_map]
  have hfe : p2.filter (fun x => !decide (some x ∈ initChild p1 start endIdx)) = S := by
    rw [hS]
    refine List.filter_congr fun x _ => ?_
    rw [decide_eq_decide.mpr (hmem x)]
  have hle : countNone (initChild p1 start endIdx) ≤
      ((p2.drop 0).filter
        (fun x => !decide
          (some x ∈ ([] : List (Option α)).reverse ++ initChild p1 start endIdx))).length := by
    simp only [List.reverse_nil, List.nil_append, List.drop_zero]
    rw [hfe, hcN, hSlen]
  have hmain := oxFill_spec p2 hp2nd (initChild p1 start endIdx) [] 0 hle
  simp only [List.reverse_nil, List.nil_append, List.drop_zero] at hmain
  rw [hfe] at hmain
  have hdropS1 : (S.drop start).length ≤ p1.length - (endIdx + 1) := by
    rw [List.length_drop]
    omega
  have hdropS2 : p1.length - (endIdx + 1) ≤ (S.drop start).length := by
    rw [List.length_drop]
    omega
  have hfill : fillNones (initChild p1 start endIdx) S =
      (S.take start).map some ++ slice.map some ++ (S.drop start).map some := by
    rw [initChild, ← hslice, List.append_assoc,
      fillNones_replicate start _ S (by omega), fillNones_map_some,
      fillNones_replicate_all (p1.length - (endIdx + 1)) (S.drop start) hdropS2,
      List.take_of_length_le hdropS1, List.append_assoc]
  have hA'len : (S.take start).length = start := by
    rw [List.length_take]
    exact Nat.min_eq_left (by omega)
  have hABlen : (S.take start ++ slice).length = endIdx + 1 := by
    rw [List.length_append, hA'len, hslice_len]
    omega
  refine ⟨S.take start ++ slice ++ S.drop start, ?_, ?_, ?_, ?_, ?_⟩
  · rw [ordered_crossover, hmain, hfill]
    simp [List.map_append]
  · simp only [List.length_append]
    rw [hA'len, hslice_len, List.length_drop]
    omega
  · rw [List.perm_iff_count]
    intro a
    have h6 : List.count a S =
        List.count a (p1.take start) + List.count a (p1.drop (endIdx + 1)) := by
      rw [hSperm.count_eq a, hfp1, List.count_append]
    have h7 : List.count a (S.take start) + List.count a (S.drop start) =
        List.count a S := by
      rw [← List.count_append, List.take_append_drop]
    rw [← hp1dec]
    simp only [List.count_append]
    omega
  · rw [List.take_left' hABlen, List.drop_left' hA'len]
  · rw [List.drop_left' hABlen, List.append_assoc, List.take_left' hA'len,
      List.take_append_drop]

/-- Witness for C7 at the concrete parents `[0, 1, 2, 3]` and
`[3, 1, 0, 2]` with cut pair `(1, 2)`. -/
theorem C7_ordered_crossover_permutation_witness :
    ([0, 1, 2, 3] : List Nat).Nodup ∧ ([3, 1, 0, 2] : List Nat).Perm [0, 1, 2, 3] ∧
    (∃ c : List Nat,
      ordered_crossover [0, 1, 2, 3] [3, 1, 0, 2] 1 2 = some (c.map some) ∧
      c.length = ([0, 1, 2, 3] : List Nat).length ∧
      c.Perm [0, 1, 2, 3] ∧
      (c.take (2 + 1)).drop 1 = (([0, 1, 2, 3] : List Nat).take (2 + 1)).drop 1 ∧
      c.take 1 ++ c.drop (2 + 1) =
        ([3, 1, 0, 2] : List Nat).filter
          (fun x => !decide (x ∈ (([0, 1, 2, 3] : List Nat).take (2 + 1)).drop 1))) :=
  ⟨by decide, by decide,
    C7_ordered_crossover_permutation [0, 1, 2, 3] [3, 1, 0, 2] 1 2 (by decide)
      (by decide) (by decide) (by decide)⟩

end VRP
